import Mathlib

/-!
Shallow embedding of the core of the `video-processor` repository
(`src/frame_buffer.cpp`, `src/upscaler.cpp`, `src/adaptive_sharpening.cpp`,
`src/selective_bilateral.cpp`, `src/temporal_consistency.cpp`) together with
proofs about the behaviours its specification describes.

Conventions used throughout:
* 8-bit pixel samples (`uchar`) are embedded as `ℤ` values in `[0,255]`;
  `float`/`double` arithmetic is embedded as exact arithmetic over `ℚ`
  (or `ℝ` where the source calls `std::exp`); `cv::saturate_cast<uchar>` is
  round-to-nearest followed by clamping.
* OpenCV library routines (`cv::resize`, `cv::GaussianBlur`,
  `cv::calcOpticalFlowFarneback`, ...) are external collaborators: they are
  taken as parameters, and theorems assume only their documented contracts
  (for instance that `cv::resize` returns an image of the requested size).
* statements about a "frame" use the `Img` record below: a dense grid with
  explicit dimensions and a pixel-lookup function.
-/

namespace VideoProc

/-- Dense 2D pixel grid with explicit dimensions; `px y x` reads row `y`,
column `x`.  Out-of-range coordinates are irrelevant to every statement. -/
structure Img (α : Type) where
  rows : ℕ
  cols : ℕ
  px : ℕ → ℕ → α

/-- cv::Mat::empty(): a matrix with no pixels. -/
def Img.isEmpty {α : Type} (i : Img α) : Bool :=
  i.rows = 0 || i.cols = 0

/-- cvRound: round to nearest integer (the source's saturate_cast rounds;
ties, which occur at exact half-integers only, are immaterial to every
statement below). -/
def cvRound (x : ℚ) : ℤ := round x

/-- cv::saturate_cast<uchar> on a rational intermediate value. -/
def satCast8 (x : ℚ) : ℤ := min 255 (max 0 (cvRound x))

/-! ## Upscaler: algorithm selection and the degrade-under-load policy
(src/upscaler.cpp) -/

/-- Upscaler::Algorithm from include/upscaler.h. -/
inductive Algorithm : Type
  | NEAREST
  | BILINEAR
  | BICUBIC
  | LANCZOS
  | SUPER_RES
  | REAL_ESRGAN
deriving DecidableEq, Repr

/-- Upscaler::adjustQualityForPerformance (src/upscaler.cpp:744-753):
returns the algorithm that is active after the call together with the
function's boolean result.  When it demotes, the implementation object is
also rebuilt (initializeImpl), which does not affect the selected
algorithm. -/
def adjustQualityForPerformance (alg : Algorithm)
    (processing_time target_time : ℚ) : Algorithm × Bool :=
  if alg = .SUPER_RES ∧ processing_time > target_time * 1.5 then
    (.BICUBIC, true)
  else
    (alg, false)

/-! ## AdaptiveSharpening: unsharp-mask arithmetic
(src/adaptive_sharpening.cpp:232-355) -/

/-- AdaptiveSharpening::Config (include/adaptive_sharpening.h), restricted
to the fields the unsharp-mask arithmetic reads. -/
structure SharpenConfig where
  strength : ℚ
  edge_strength : ℚ
  smooth_strength : ℚ
  edge_threshold : ℚ

/-- Per-pixel adaptive strength from src/adaptive_sharpening.cpp:280-283:
`strength * (edge_value * edge_strength + (1 - edge_value) * smooth_strength)`. -/
def sharpenStrength (cfg : SharpenConfig) (edge_value : ℚ) : ℚ :=
  cfg.strength *
    (edge_value * cfg.edge_strength + (1 - edge_value) * cfg.smooth_strength)

/-- The unsharp contribution added to a pixel before clamping
(src/adaptive_sharpening.cpp:290, the `strength * mask_value` term). -/
def unsharpContribution (cfg : SharpenConfig) (edge_value mask_value : ℚ) : ℚ :=
  sharpenStrength cfg edge_value * mask_value

/-- One output pixel of the unsharp mask
(src/adaptive_sharpening.cpp:286-293): original plus the weighted detail
signal, saturated to the 8-bit range. -/
def unsharpPixel (cfg : SharpenConfig)
    (edge_value mask_value original : ℚ) : ℤ :=
  satCast8 (original + unsharpContribution cfg edge_value mask_value)

/-- cv::subtract on CV_8U data saturates at 0, so the unsharp detail signal
is `max 0 (input - blurred)` (src/adaptive_sharpening.cpp:263-265). -/
def satSub8 (a b : ℤ) : ℤ := max 0 (a - b)

/-- AdaptiveSharpening::applyUnsharpMask, single-channel path
(src/adaptive_sharpening.cpp:232-295).  `gauss` is the external
cv::GaussianBlur collaborator. -/
def applyUnsharpMask (gauss : Img ℤ → Img ℤ) (cfg : SharpenConfig)
    (input : Img ℤ) (edge_mask : Img ℚ) : Img ℤ :=
  let blurred := gauss input
  let unsharp_mask : Img ℤ :=
    ⟨input.rows, input.cols, fun y x => satSub8 (input.px y x) (blurred.px y x)⟩
  ⟨input.rows, input.cols, fun y x =>
    unsharpPixel cfg (edge_mask.px y x) ((unsharp_mask.px y x : ℚ))
      ((input.px y x : ℚ))⟩

/-! ## FrameBuffer: thread-safe frame ring (src/frame_buffer.cpp)

A cv::Mat is a reference-counted handle on a pixel buffer.  To express the
difference between handle assignment (`frame = m_frames[m_tail]`, which
aliases) and `cv::Mat::copyTo` (which copies pixel data), buffers live in
an explicit heap: a `Mat` is `some b` for a buffer id `b` (or `none` for a
default-constructed empty Mat) and the heap maps ids to pixel data.
`copyTo` into an empty destination allocates a fresh buffer — which is what
every `pushFrame` does, since slots start as empty Mats and `popFrame`
resets the slot it reads to an empty Mat. -/

/-- cv::Mat: `none` is an empty matrix, `some b` a handle on buffer `b`. -/
abbrev Mat : Type := Option ℕ

/-- Pixel-buffer heap; `next` is the first unallocated buffer id. -/
structure Heap where
  next : ℕ
  mem : ℕ → List ℕ

/-- In-place pixel mutation of buffer `b` — what a caller does when it
writes to a frame it still holds after pushing it. -/
def Heap.write (h : Heap) (b : ℕ) (d : List ℕ) : Heap :=
  ⟨h.next, Function.update h.mem b d⟩

/-- FrameBuffer state (include/frame_buffer.h): capacity, head, tail,
occupancy count, slot array. -/
structure FrameBuffer where
  capacity : ℕ
  head : ℕ
  tail : ℕ
  sz : ℕ
  frames : List Mat

/-- FrameBuffer::FrameBuffer(capacity): slots pre-allocated as empty Mats. -/
def mkFrameBuffer (capacity : ℕ) : FrameBuffer :=
  ⟨capacity, 0, 0, 0, List.replicate capacity none⟩

/-- FrameBuffer::size(). -/
def FrameBuffer.size (fb : FrameBuffer) : ℕ := fb.sz

/-- FrameBuffer::empty(). -/
def FrameBuffer.emptyB (fb : FrameBuffer) : Bool := fb.size = 0

/-- FrameBuffer::full(): `size() >= m_capacity`. -/
def FrameBuffer.full (fb : FrameBuffer) : Bool := fb.capacity ≤ fb.size

/-- FrameBuffer::nextIndex: advance an index with wrap-around. -/
def FrameBuffer.nextIndex (fb : FrameBuffer) (i : ℕ) : ℕ := (i + 1) % fb.capacity

/-- Result of a ring operation: `ok`/`fail` are the C++ true/false returns;
`blocked` marks the point where a blocking call suspends on its condition
variable (the call completes once the predicate holds, which the theorems
express by re-running the operation on the woken state). -/
inductive RingRes : Type
  | ok
  | fail
  | blocked
deriving DecidableEq, Repr

/-- FrameBuffer::pushFrame (src/frame_buffer.cpp:13-47).  An empty frame is
rejected; on a full ring a non-blocking push fails and a blocking push
suspends; otherwise `frame.copyTo(m_frames[m_head])` deep-copies the pixel
data into a freshly allocated buffer (the destination slot is an empty Mat,
so OpenCV allocates; the `m_size > 0.8 * m_capacity` branch differs only in
an allocation hint, not in copy semantics). -/
def pushFrame (frame : Mat) (blocking : Bool) (fb : FrameBuffer) (h : Heap) :
    RingRes × FrameBuffer × Heap :=
  match frame with
  | none => (.fail, fb, h)
  | some src =>
    if fb.full then
      if blocking then (.blocked, fb, h) else (.fail, fb, h)
    else
      (.ok,
       { fb with
          frames := fb.frames.set fb.head (some h.next)
          head := fb.nextIndex fb.head
          sz := fb.sz + 1 },
       ⟨h.next + 1, Function.update h.mem h.next (h.mem src)⟩)

/-- FrameBuffer::popFrame (src/frame_buffer.cpp:49-75): on an empty ring a
non-blocking pop fails and a blocking pop suspends; otherwise the slot at
`m_tail` is aliased out (`frame = m_frames[m_tail]`, zero-copy), the slot
is reset to an empty Mat, and tail/occupancy advance.  The middle component
is the Mat written into the caller's `frame` argument, `none` if the call
did not retrieve one. -/
def popFrame (blocking : Bool) (fb : FrameBuffer) :
    RingRes × Option Mat × FrameBuffer :=
  if fb.sz = 0 then
    (if blocking then .blocked else .fail, none, fb)
  else
    (.ok, some (fb.frames.getD fb.tail none),
     { fb with
        frames := fb.frames.set fb.tail none
        tail := fb.nextIndex fb.tail
        sz := fb.sz - 1 })

/-- FrameBuffer::clear (src/frame_buffer.cpp:93-107): release every slot,
reset head/tail/occupancy. -/
def clearBuffer (fb : FrameBuffer) : FrameBuffer :=
  { fb with
      frames := fb.frames.map fun _ => none
      head := 0
      tail := 0
      sz := 0 }

/-- Push a list of (frame, blocking-flag) pairs in order, collecting each
call's boolean result. -/
def pushList : List (Mat × Bool) → FrameBuffer → Heap →
    List RingRes × FrameBuffer × Heap
  | [], fb, h => ([], fb, h)
  | (m, bl) :: rest, fb, h =>
    let r := pushFrame m bl fb h
    let s := pushList rest r.2.1 r.2.2
    (r.1 :: s.1, s.2)

/-- Pop once per flag in order, collecting each call's output Mat. -/
def popList : List Bool → FrameBuffer → List (Option Mat) × FrameBuffer
  | [], fb => ([], fb)
  | bl :: rest, fb =>
    let r := popFrame bl fb
    let s := popList rest r.2.2
    (r.2.1 :: s.1, s.2)

/-- Slot holding the i-th oldest queued frame. -/
def FrameBuffer.bufAt (fb : FrameBuffer) (i : ℕ) : Mat :=
  fb.frames.getD ((fb.tail + i) % fb.capacity) none

/-- Well-formedness of a ring state relative to the heap: the slot array
has `capacity` entries, occupancy is bounded, head and tail are consistent,
and every occupied slot holds an allocated buffer. -/
def FrameBuffer.WF (fb : FrameBuffer) (h : Heap) : Prop :=
  0 < fb.capacity ∧
  fb.frames.length = fb.capacity ∧
  fb.sz ≤ fb.capacity ∧
  fb.tail < fb.capacity ∧
  fb.head = (fb.tail + fb.sz) % fb.capacity ∧
  ∀ i, i < fb.sz → ∃ b, fb.bufAt i = some b ∧ b < h.next

/-- Pixel contents of the queued frames, oldest first. -/
def absQ (fb : FrameBuffer) (h : Heap) : List (List ℕ) :=
  (List.range fb.sz).map fun i => h.mem ((fb.bufAt i).getD 0)

/-- Pixel data of a Mat returned by popFrame. -/
def matData (h : Heap) (m : Option Mat) : List ℕ :=
  h.mem ((m.getD none).getD 0)

/-! ## Upscaler::upscale (src/upscaler.cpp, src/dnn_super_res.cpp)

The embedding below follows the CPU build (`WITH_CUDA` undefined; the CUDA
variants mirror the same resize-to-target calls).  8-bit BGR pixels are
`ℤ × ℤ × ℤ`; single-channel 8-bit images are `Img ℤ`. -/

/-- One BGR pixel. -/
abbrev Pix3 : Type := ℤ × ℤ × ℤ

/-- cv::split, channel 0. -/
def ch0 (i : Img Pix3) : Img ℤ := ⟨i.rows, i.cols, fun y x => (i.px y x).1⟩

/-- cv::split, channel 1. -/
def ch1 (i : Img Pix3) : Img ℤ := ⟨i.rows, i.cols, fun y x => (i.px y x).2.1⟩

/-- cv::split, channel 2. -/
def ch2 (i : Img Pix3) : Img ℤ := ⟨i.rows, i.cols, fun y x => (i.px y x).2.2⟩

/-- cv::merge of three equally-sized channels (dimensions of the first). -/
def mergeCh (a b c : Img ℤ) : Img Pix3 :=
  ⟨a.rows, a.cols, fun y x => (a.px y x, b.px y x, c.px y x)⟩

/-- Mat * scalar on CV_8U data: per-pixel scale with saturate_cast. -/
def scaleCh (k : ℚ) (i : Img ℤ) : Img ℤ :=
  ⟨i.rows, i.cols, fun y x => satCast8 (k * (i.px y x : ℚ))⟩

/-- Mat::convertTo(-1, alpha, beta) on a BGR image: per-channel affine map
with saturate_cast. -/
def convertToPix3 (alpha beta : ℚ) (i : Img Pix3) : Img Pix3 :=
  ⟨i.rows, i.cols, fun y x =>
    (satCast8 (alpha * ((i.px y x).1 : ℚ) + beta),
     satCast8 (alpha * ((i.px y x).2.1 : ℚ) + beta),
     satCast8 (alpha * ((i.px y x).2.2 : ℚ) + beta))⟩

/-- Outcome of the ONNX forward pass in DnnSuperRes::upscaleRealESRGAN:
a well-shaped 4-D blob (already unpacked to an image here), a blob whose
dimension count is not 4, or a cv::Exception. -/
inductive DnnOut : Type
  | ok (out : Img Pix3)
  | badShape
  | threw

/-- External OpenCV/DNN collaborators used by the upscale paths.  Each is a
total function; exceptions are represented where the source catches them
(`upsample`, `forward`). -/
structure CvOps where
  resize : Img Pix3 → ℕ → ℕ → Img Pix3
  resize1 : Img ℤ → ℕ → ℕ → Img ℤ
  resizeScale : Img Pix3 → Img Pix3
  gaussianBlur : Img Pix3 → Img Pix3
  bilateral1 : Img ℤ → Img ℤ
  bilateral3 : Img Pix3 → Img Pix3
  cvtGray : Img Pix3 → Img ℤ
  canny : Img ℤ → Img ℤ
  dilate : Img ℤ → Img ℤ
  cvtYCrCb : Img Pix3 → Img Pix3
  cvtBGRofYCrCb : Img Pix3 → Img Pix3
  cvtLab : Img Pix3 → Img Pix3
  cvtBGRofLab : Img Pix3 → Img Pix3
  filter2D1 : Img ℤ → Img ℤ
  filter2D3 : Img Pix3 → Img Pix3
  upsample : Img Pix3 → Option (Img Pix3)
  forward : Img Pix3 → DnnOut

/-- Documented dimension contracts of the external routines the upscale
paths rely on: cv::resize returns exactly the requested size, and the
filtering/colour-conversion routines preserve their input's size. -/
def CvOps.DimsOK (ops : CvOps) : Prop :=
  (∀ i w hh, (ops.resize i w hh).cols = w ∧ (ops.resize i w hh).rows = hh) ∧
  (∀ i w hh, (ops.resize1 i w hh).cols = w ∧ (ops.resize1 i w hh).rows = hh) ∧
  (∀ i, (ops.filter2D1 i).cols = i.cols ∧ (ops.filter2D1 i).rows = i.rows) ∧
  (∀ i, (ops.filter2D3 i).cols = i.cols ∧ (ops.filter2D3 i).rows = i.rows) ∧
  (∀ i, (ops.cvtLab i).cols = i.cols ∧ (ops.cvtLab i).rows = i.rows) ∧
  (∀ i, (ops.cvtBGRofLab i).cols = i.cols ∧ (ops.cvtBGRofLab i).rows = i.rows) ∧
  (∀ i, (ops.cvtBGRofYCrCb i).cols = i.cols ∧ (ops.cvtBGRofYCrCb i).rows = i.rows)

/-- CPUImpl::enhanceDetails (src/upscaler.cpp:190-198): subtle 3×3 sharpen. -/
def enhanceDetails (ops : CvOps) (image : Img Pix3) : Img Pix3 :=
  ops.filter2D3 image

/-- CPUImpl::enhanceDetailsY (src/upscaler.cpp:201-209): aggressive 3×3
sharpen on the luminance channel. -/
def enhanceDetailsY (ops : CvOps) (input : Img ℤ) : Img ℤ :=
  ops.filter2D1 input

/-- CPUImpl::enhanceColors (src/upscaler.cpp:212-233): boost the Lab a/b
channels by 1.1 and lift contrast by 1.05. -/
def enhanceColors (ops : CvOps) (image : Img Pix3) : Img Pix3 :=
  let lab := ops.cvtLab image
  let lab2 := mergeCh (ch0 lab) (scaleCh (11/10) (ch1 lab)) (scaleCh (11/10) (ch2 lab))
  let bgr := ops.cvtBGRofLab lab2
  convertToPix3 (105/100) 0 bgr

/-- One pixel of the 5-point sharpening kernel applied in
enhanceBicubicResult's interior loop (src/upscaler.cpp:114-128). -/
def sharpen5 (image : Img Pix3) (y x : ℕ) : Pix3 :=
  (satCast8 ((5 * (image.px y x).1 - (image.px (y-1) x).1 - (image.px (y+1) x).1
      - (image.px y (x-1)).1 - (image.px y (x+1)).1 : ℤ) : ℚ),
   satCast8 ((5 * (image.px y x).2.1 - (image.px (y-1) x).2.1 - (image.px (y+1) x).2.1
      - (image.px y (x-1)).2.1 - (image.px y (x+1)).2.1 : ℤ) : ℚ),
   satCast8 ((5 * (image.px y x).2.2 - (image.px (y-1) x).2.2 - (image.px (y+1) x).2.2
      - (image.px y (x-1)).2.2 - (image.px y (x+1)).2.2 : ℤ) : ℚ))

/-- CPUImpl::enhanceBicubicResult (src/upscaler.cpp:93-143): bilateral-blur
smooth regions, Canny-detect and dilate edges, sharpen edge pixels in the
interior, then blend per pixel by edge membership. -/
def enhanceBicubicResult (ops : CvOps) (image : Img Pix3) : Img Pix3 :=
  let blurred := ops.bilateral3 image
  let edges := ops.canny (ops.cvtGray image)
  let edgeMask0 := ops.dilate edges
  -- edgeMask.convertTo(edgeMask, CV_8U, 1.0/255.0)
  let edgeMask : Img ℤ :=
    ⟨edgeMask0.rows, edgeMask0.cols, fun y x => satCast8 ((edgeMask0.px y x : ℚ) / 255)⟩
  let sharpened : Img Pix3 :=
    ⟨image.rows, image.cols, fun y x =>
      if 1 ≤ y ∧ y + 1 < image.rows ∧ 1 ≤ x ∧ x + 1 < image.cols ∧
          0 < edgeMask.px y x then
        sharpen5 image y x
      else image.px y x⟩
  ⟨image.rows, image.cols, fun y x =>
    if 0 < edgeMask.px y x then sharpened.px y x else blurred.px y x⟩

/-- CPUImpl::upscaleSuperRes (src/upscaler.cpp:151-187): YCrCb split,
bilateral-filtered luma upscaled with Lanczos and sharpened, chroma
upscaled bilinearly, remerged, recoloured. -/
def upscaleSuperRes (ops : CvOps) (tw th : ℕ) (input : Img Pix3) : Img Pix3 :=
  let ycrcb := ops.cvtYCrCb input
  let y_filtered := ops.bilateral1 (ch0 ycrcb)
  let y_upscaled := ops.resize1 y_filtered tw th
  let y_enhanced := enhanceDetailsY ops y_upscaled
  let cr_upscaled := ops.resize1 (ch1 ycrcb) tw th
  let cb_upscaled := ops.resize1 (ch2 ycrcb) tw th
  let merged := mergeCh y_enhanced cr_upscaled cb_upscaled
  enhanceColors ops (ops.cvtBGRofYCrCb merged)

/-- CPUImpl::upscale (src/upscaler.cpp:38-91). -/
def cpuUpscale (ops : CvOps) (alg : Algorithm) (tw th : ℕ)
    (input : Img Pix3) : Option (Img Pix3) :=
  if input.isEmpty then none
  else if alg = .SUPER_RES then some (upscaleSuperRes ops tw th input)
  else if alg = .BICUBIC then
    some (enhanceBicubicResult ops (ops.resize (ops.gaussianBlur input) tw th))
  else
    let out := ops.resize input tw th
    some (if alg = .NEAREST then out else enhanceDetails ops out)

/-- DnnSuperRes::ModelType (include/dnn_super_res.h). -/
inductive ModelType : Type
  | FSRCNN
  | ESPCN
  | EDSR
  | LAPSRN
  | REAL_ESRGAN
deriving DecidableEq, Repr

/-- DnnSuperRes state relevant to upscale: model type, target size set via
setTargetSize, and whether initialization succeeded. -/
structure DnnState where
  model_type : ModelType
  target_width : ℕ
  target_height : ℕ
  ready : Bool

/-- DnnSuperRes::upscaleRealESRGAN (src/dnn_super_res.cpp:117-214): on a
well-shaped blob, unpack and resize to the target when one is set and the
sizes differ; a bad blob shape returns false; a cv::Exception falls back to
a plain 4× resize (or a 4× error image) and still returns true. -/
def dnnUpscaleRealESRGAN (ops : CvOps) (d : DnnState) (input : Img Pix3) :
    Option (Img Pix3) :=
  match ops.forward input with
  | .ok out =>
    some (if 0 < d.target_width ∧ 0 < d.target_height ∧
        (out.cols ≠ d.target_width ∨ out.rows ≠ d.target_height) then
      ops.resize out d.target_width d.target_height
    else out)
  | .badShape => none
  | .threw => some (ops.resize input (input.cols * 4) (input.rows * 4))

/-- DnnSuperRes::upscale (src/dnn_super_res.cpp:66-115): REAL_ESRGAN model
type goes through the ONNX path, otherwise `m_sr.upsample` runs and the
result is resized to the target when one is set and the sizes differ; a
cv::Exception falls back to a Lanczos resize to the target when one is set
(returning true), else returns false. -/
def dnnUpscale (ops : CvOps) (d : DnnState) (input : Img Pix3) :
    Option (Img Pix3) :=
  if d.ready = false then none
  else if input.isEmpty then none
  else if d.model_type = .REAL_ESRGAN then dnnUpscaleRealESRGAN ops d input
  else
    match ops.upsample input with
    | some out =>
      some (if 0 < d.target_width ∧ 0 < d.target_height ∧
          (out.cols ≠ d.target_width ∨ out.rows ≠ d.target_height) then
        ops.resize out d.target_width d.target_height
      else out)
    | none =>
      if 0 < d.target_width ∧ 0 < d.target_height then
        some (ops.resize input d.target_width d.target_height)
      else none

/-- A concrete, trivially dimension-correct instance of the external
collaborators, used to evaluate the model on closed inputs. -/
def trivialCvOps : CvOps :=
  ⟨fun _ w hh => ⟨hh, w, fun _ _ => (0, 0, 0)⟩,
   fun _ w hh => ⟨hh, w, fun _ _ => 0⟩,
   id, id, id, id,
   fun i => ⟨i.rows, i.cols, fun _ _ => 0⟩,
   id, id, id, id, id, id, id, id,
   fun _ => none, fun _ => .badShape⟩

/-- Upscaler state relevant to upscale: selected algorithm, target size,
the CPU implementation object (tagged with its algorithm) and the DNN
super-resolution object, as built by initializeImpl. -/
structure UpscalerState where
  algorithm : Algorithm
  target_width : ℕ
  target_height : ℕ
  impl : Option Algorithm
  dnn : Option DnnState

/-- Upscaler::initializeImpl (src/upscaler.cpp:674-742) for the CPU build:
with a positive target, SUPER_RES/REAL_ESRGAN first try to build the DNN
upscaler (REAL_ESRGAN is routed to an EDSR model, SUPER_RES to FSRCNN);
when that succeeds no classical implementation is built, otherwise a
CPUImpl carrying the selected algorithm is created.  `dnnOk` abstracts
whether DnnSuperRes::initialize succeeded (model files, ONNX import). -/
def initImpl (alg : Algorithm) (tw th : ℕ) (dnnOk : Bool) : UpscalerState :=
  if tw = 0 ∨ th = 0 then ⟨alg, tw, th, none, none⟩
  else if (alg = .SUPER_RES ∨ alg = .REAL_ESRGAN) ∧ dnnOk then
    ⟨alg, tw, th, none,
      some ⟨if alg = .REAL_ESRGAN then .EDSR else .FSRCNN, tw, th, true⟩⟩
  else ⟨alg, tw, th, some alg, none⟩

/-- The non-DNN tail of Upscaler::upscale (src/upscaler.cpp:600-614): with
no implementation object, fall back to a plain resize to the target;
otherwise run the implementation. -/
def upscaleStd (ops : CvOps) (st : UpscalerState) (working : Img Pix3) :
    Option (Img Pix3) :=
  match st.impl with
  | none => some (ops.resize working st.target_width st.target_height)
  | some alg => cpuUpscale ops alg st.target_width st.target_height working

/-- Upscaler::upscale (src/upscaler.cpp:576-615): reject empty input,
pre-downscale oversized input, route SUPER_RES to the DNN upscaler when one
is initialized, else to the implementation object or the plain-resize
fallback. -/
def upscaleU (ops : CvOps) (st : UpscalerState) (input : Img Pix3) :
    Option (Img Pix3) :=
  if input.isEmpty then none
  else
    let working := if 1280 < input.cols ∨ 720 < input.rows
      then ops.resizeScale input else input
    match st.dnn with
    | some d =>
      if st.algorithm = .SUPER_RES ∧ d.ready = true then dnnUpscale ops d working
      else upscaleStd ops st working
    | none => upscaleStd ops st working

/-! ## TemporalConsistency (src/temporal_consistency.cpp)

Frames are 8-bit BGR (`Img Pix3`), grayscale frames `Img ℤ`, flow fields
per-pixel (dx, dy) pairs, masks rational-valued.  `float`/`double`
arithmetic is exact over `ℚ`; the C math-library calls `std::exp` and
`std::sqrt`, like the OpenCV routines, are external collaborators
(`expOp`, `sqrtOp`). -/

/-- Flow field: per-pixel (dx, dy). -/
abbrev FlowImg : Type := Img (ℚ × ℚ)

/-- Default-constructed (empty) images of each kind. -/
def emptyC : Img Pix3 := ⟨0, 0, fun _ _ => (0, 0, 0)⟩

/-- Empty rational-valued (mask) image. -/
def emptyM : Img ℚ := ⟨0, 0, fun _ _ => 0⟩

/-- Empty flow field. -/
def emptyFl : FlowImg := ⟨0, 0, fun _ _ => (0, 0)⟩

/-- cv::Mat::ones over a frame's geometry (the identity reliability mask of
the current frame, src/temporal_consistency.cpp:123). -/
def onesMask (i : Img Pix3) : Img ℚ := ⟨i.rows, i.cols, fun _ _ => 1⟩

/-- External collaborators of TemporalConsistency: grayscale conversion,
the histogram-correlation difference (calcHist/normalize/compareHist),
Farneback optical flow (an empty result means failure), cv::remap, the
15×15 Gaussian blur of the reliability mask, and the C math library. -/
structure TCOps where
  cvtGray : Img Pix3 → Img ℤ
  histDiff : Img ℤ → Img ℤ → ℚ
  flowOp : Img ℤ → Img ℤ → FlowImg
  remap : Img Pix3 → (ℕ → ℕ → ℚ) → (ℕ → ℕ → ℚ) → Img Pix3
  blurMask : Img ℚ → Img ℚ
  expOp : ℚ → ℚ
  sqrtOp : ℚ → ℚ

/-- TemporalConsistency::Config (include/temporal_consistency.h), the
fields the processing path reads (the Farneback parameters are forwarded
to the external flow collaborator). -/
structure TCConfig where
  buffer_size : ℕ
  blend_strength : ℚ
  motion_threshold : ℚ
  scene_change_threshold : ℚ

/-- Mean absolute difference of two grayscale frames
(cv::absdiff + cv::mean, src/temporal_consistency.cpp:302-304). -/
def madScore (a b : Img ℤ) : ℚ :=
  (∑ y ∈ Finset.range a.rows, ∑ x ∈ Finset.range a.cols,
    ((a.px y x - b.px y x).natAbs : ℚ)) / ((a.rows : ℚ) * (a.cols : ℚ))

/-- TemporalConsistency::detectSceneChange
(src/temporal_consistency.cpp:283-323): combine the normalized
histogram-correlation difference (×100) with the mean absolute difference
(×0.5) and compare against the threshold. -/
def detectSceneChange (ops : TCOps) (cfg : TCConfig) (prev curr : Img ℤ) : Bool :=
  decide (cfg.scene_change_threshold <
    ops.histDiff prev curr * 100 + madScore prev curr * (1/2))

/-- Reliability of one flow vector
(src/temporal_consistency.cpp:331-343): full trust below the motion
threshold, exponentially decayed (clamped to [0,1]) above it. -/
def reliabilityPx (ops : TCOps) (cfg : TCConfig) (f : ℚ × ℚ) : ℚ :=
  let magnitude := ops.sqrtOp (f.1 * f.1 + f.2 * f.2)
  if cfg.motion_threshold < magnitude then
    max 0 (min 1 (ops.expOp (-(magnitude - cfg.motion_threshold) / 10)))
  else 1

/-- TemporalConsistency::calculateFlowReliabilityMask
(src/temporal_consistency.cpp:325-353): per-pixel reliability followed by
the 15×15 Gaussian blur. -/
def calculateFlowReliabilityMask (ops : TCOps) (cfg : TCConfig)
    (flow : FlowImg) : Img ℚ :=
  ops.blurMask ⟨flow.rows, flow.cols, fun y x => reliabilityPx ops cfg (flow.px y x)⟩

/-- TemporalConsistency::warpFrame, CPU path
(src/temporal_consistency.cpp:258-274): remap by per-pixel displacement. -/
def warpFrame (ops : TCOps) (frame : Img Pix3) (flow : FlowImg) : Img Pix3 :=
  ops.remap frame
    (fun y x => (x : ℚ) + (flow.px y x).1)
    (fun y x => (y : ℚ) + (flow.px y x).2)

/-- TemporalConsistency::blendFrames
(src/temporal_consistency.cpp:355-444).  Only the guarded entry paths
produce a defined value: with no frames the function returns leaving the
caller's output untouched (no value of its own, `none`), and an empty
first frame is copied out.  On the main path the accumulator `output` is
allocated with `frames[0].type()` — CV_8UC3 — at line 367, yet lines 408,
426 and 430 read and write it through `cv::Vec3f&` references,
reinterpreting the 3-byte-per-pixel buffer as 12-byte-per-pixel floats
(out-of-bounds, type-punned stores), and the closing
`convertTo(output, CV_8UC3)` at line 436 is a same-depth no-scale call,
i.e. a raw byte copy.  The weighted blend the loop intends is therefore
never computed and the produced bytes are not well defined, so the
embedding assigns the main path no value (`none`). -/
def blendFrames (frames : List (Img Pix3)) (_masks : List (Img ℚ)) :
    Option (Img Pix3) :=
  match frames with
  | [] => none
  | f0 :: _ => if f0.isEmpty then some f0 else none

/-- TemporalConsistency history state: the three parallel deques (oldest
first; push_back appends, pop_front drops the head). -/
structure TCState where
  frames : List (Img Pix3)
  grays : List (Img ℤ)
  flows : List FlowImg

/-- TemporalConsistency::reset (src/temporal_consistency.cpp:45-50). -/
def tcReset : TCState := ⟨[], [], []⟩

/-- The `while (size() > bs) pop_front()` trimming loop
(src/temporal_consistency.cpp:162-165). -/
def trimTo {α : Type} (bs : ℕ) (l : List α) : List α :=
  l.drop (l.length - bs)

/-- The `while (size() >= bs) pop_front()` trimming loop for the flow
deque (src/temporal_consistency.cpp:167-169); with bs = 0 the C++ loop
would pop an empty deque (undefined behaviour), so the theorems assume
bs ≥ 1. -/
def trimKeepBelow {α : Type} (bs : ℕ) (l : List α) : List α :=
  l.drop (l.length + 1 - bs)

/-- The warp-and-mask loop over the buffered (frame, flow) pairs
(src/temporal_consistency.cpp:126-143): the i-th newest frame is warped by
the i-th newest flow; failed warps (empty result) are skipped. -/
def collectWarped (ops : TCOps) (cfg : TCConfig) (frames : List (Img Pix3))
    (flows1 : List FlowImg) : List (Img Pix3 × Img ℚ) :=
  (List.range (min flows1.length frames.length)).filterMap fun i =>
    let prev_frame := frames.getD (frames.length - 1 - i) emptyC
    let flow_field := flows1.getD (flows1.length - 1 - i) emptyFl
    let warped := warpFrame ops prev_frame flow_field
    if warped.isEmpty then none
    else some (warped, calculateFlowReliabilityMask ops cfg flow_field)

/-- TemporalConsistency::process (src/temporal_consistency.cpp:61-172) of
an initialized instance: reject empty input (outer `none`, output
untouched); with empty history buffer the frame and return it unchanged;
otherwise detect scene change and compute flow from the last buffered gray
frame — on scene change clear all history, on flow failure keep it, in
both cases buffer the frame and return it unchanged without trimming;
otherwise push the flow, warp the history, call blendFrames when more than
one participant remains, buffer the frame and trim the deques.  The output
component is an `Option (Img Pix3)`: `some` on every copyTo path, and
blendFrames' result — which is `none`, no well-defined bytes — when the
blending branch runs. -/
def tcProcess (ops : TCOps) (cfg : TCConfig) (s : TCState)
    (current : Img Pix3) : Option (Option (Img Pix3) × TCState) :=
  if current.isEmpty then none
  else
    let current_gray := ops.cvtGray current
    if s.frames.isEmpty then
      some (some current, ⟨[current], [current_gray], []⟩)
    else
      let prev_gray := s.grays.getLast?.getD current_gray
      let scene_change :=
        if s.grays.isEmpty = false then
          detectSceneChange ops cfg prev_gray current_gray
        else false
      let flow := ops.flowOp prev_gray current_gray
      if scene_change = false ∧ flow.isEmpty = false then
        let flows1 := s.flows ++ [flow]
        let pairs := collectWarped ops cfg s.frames flows1
        let frames_to_blend := current :: pairs.map Prod.fst
        let masks := onesMask current :: pairs.map Prod.snd
        let output :=
          if flows1.isEmpty = false ∧ 1 ≤ s.frames.length then
            if 1 < frames_to_blend.length then
              blendFrames frames_to_blend masks
            else some current
          else some current
        some (output,
          ⟨trimTo cfg.buffer_size (s.frames ++ [current]),
           trimTo cfg.buffer_size (s.grays ++ [current_gray]),
           trimKeepBelow cfg.buffer_size flows1⟩)
      else
        let s1 := if scene_change = true then tcReset else s
        some (some current,
          ⟨s1.frames ++ [current], s1.grays ++ [current_gray], s1.flows⟩)

/-- OpenCV's BGR→gray formula (0.114 B + 0.587 G + 0.299 R), used to build
a concrete cvtGray collaborator. -/
def stdGrayPx (p : Pix3) : ℤ :=
  satCast8 ((114 * (p.1 : ℚ) + 587 * (p.2.1 : ℚ) + 299 * (p.2.2 : ℚ)) / 1000)

/-- A concrete instance of the TemporalConsistency collaborators, agreeing
with the real routines on every input the closed statements exercise:
grayscale by the standard formula; zero histogram difference (as between
near-identical histograms); zero optical flow (a static scene); remap,
which is the identity under an identity map (zero flow); Gaussian blur,
which is the identity on constant masks; exp with exp 0 = 1 and
exp(-1/2) ≈ 3/5; sqrt with sqrt 0 = 0. -/
def cexTCOps : TCOps where
  cvtGray := fun i => ⟨i.rows, i.cols, fun y x => stdGrayPx (i.px y x)⟩
  histDiff := fun _ _ => 0
  flowOp := fun a _ => ⟨a.rows, a.cols, fun _ _ => (0, 0)⟩
  remap := fun frame _ _ => frame
  blurMask := id
  expOp := fun q => if q = 0 then 1 else 3/5
  sqrtOp := fun q => if q = 0 then 0 else q

/-- The concrete collaborators with a flow routine that always returns a
(non-empty) 1×1 zero flow field, so that flow computation never fails. -/
def wfTCOps : TCOps := { cexTCOps with flowOp := fun _ _ => ⟨1, 1, fun _ _ => (0, 0)⟩ }

/-- 1×1 all-black frame. -/
def blackC : Img Pix3 := ⟨1, 1, fun _ _ => (0, 0, 0)⟩

/-- 1×1 all-white frame. -/
def whiteC : Img Pix3 := ⟨1, 1, fun _ _ => (255, 255, 255)⟩

/-- History-buffer invariant of C6: the gray deque parallels the color
deque, the flow deque is one shorter (empty below two frames), and none
exceeds buffer_size. -/
def TCInv (cfg : TCConfig) (s : TCState) : Prop :=
  s.grays.length = s.frames.length ∧
  s.flows.length = s.frames.length - 1 ∧
  s.frames.length ≤ cfg.buffer_size ∧
  s.grays.length ≤ cfg.buffer_size ∧
  s.flows.length ≤ cfg.buffer_size

/-! ## Mask construction: AdaptiveSharpening::createEdgeMask
(src/adaptive_sharpening.cpp:107-230) and
SelectiveBilateral::createDetailMask (src/selective_bilateral.cpp:239-313)

Grayscale 8-bit images are `Img ℤ`, CV_32F images `Img ℚ`; the Sobel,
Laplacian and blur convolutions as well as std::exp/std::sqrt are external
collaborators. -/

/-- cv::convertScaleAbs: absolute value saturated to 8 bits. -/
def convertScaleAbs (i : Img ℤ) : Img ℤ :=
  ⟨i.rows, i.cols, fun y x => min 255 (((i.px y x).natAbs : ℤ))⟩

/-- cv::addWeighted on 8-bit images: weighted sum with saturate_cast
(round then clamp). -/
def addWeighted8 (a' b' : ℚ) (a b : Img ℤ) : Img ℤ :=
  ⟨a.rows, a.cols, fun y x =>
    satCast8 (a' * ((a.px y x : ℚ)) + b' * ((b.px y x : ℚ)))⟩

/-- External collaborators of AdaptiveSharpening::createEdgeMask. -/
structure ASOps where
  cvtGray : Img Pix3 → Img ℤ
  sobelX16 : Img ℤ → Img ℤ
  sobelY16 : Img ℤ → Img ℤ
  laplacian16 : Img ℤ → Img ℤ
  blurMaskQ : Img ℚ → Img ℚ
  expOp : ℚ → ℚ

/-- AdaptiveSharpening::createEdgeMask
(src/adaptive_sharpening.cpp:107-230), CPU path on a colour input: Sobel
gradients and Laplacian (both CV_16S, rectified to 8 bits) are combined
0.6/0.4, rescaled to [0,1] and back, pushed through the sigmoid
`1/(1+exp(-(v-threshold)·0.1))` and blurred 5×5. -/
def createEdgeMask (aops : ASOps) (cfg : SharpenConfig) (input : Img Pix3) :
    Img ℚ :=
  let gray := aops.cvtGray input
  let abs_grad_x := convertScaleAbs (aops.sobelX16 gray)
  let abs_grad_y := convertScaleAbs (aops.sobelY16 gray)
  let sobel_grad := addWeighted8 (1/2) (1/2) abs_grad_x abs_grad_y
  let laplacian := convertScaleAbs (aops.laplacian16 gray)
  let combined_edges := addWeighted8 (6/10) (4/10) sobel_grad laplacian
  let edge_mask_float : Img ℚ :=
    ⟨combined_edges.rows, combined_edges.cols, fun y x =>
      (combined_edges.px y x : ℚ) * (1/255)⟩
  let sigmoidM : Img ℚ :=
    ⟨edge_mask_float.rows, edge_mask_float.cols, fun y x =>
      1 / (1 + aops.expOp
        (-(edge_mask_float.px y x * 255 - cfg.edge_threshold) * (1/10)))⟩
  aops.blurMaskQ sigmoidM

/-- External collaborators of SelectiveBilateral::createDetailMask. -/
structure SBOps where
  cvtGray : Img Pix3 → Img ℤ
  sobelX32 : Img ℤ → Img ℚ
  sobelY32 : Img ℤ → Img ℚ
  boxBlur8 : Img ℤ → Img ℤ
  blurMaskQ : Img ℚ → Img ℚ
  expOp : ℚ → ℚ
  sqrtOp : ℚ → ℚ

/-- SelectiveBilateral::Config (include/selective_bilateral.h), the field
createDetailMask reads. -/
structure SmoothConfig where
  detail_threshold : ℚ

/-- cv::sqrt called on a CV_8U array.  OpenCV's sqrt (cv::pow with power
0.5) supports only CV_32F/CV_64F inputs and raises cv::Exception for any
integer array, so it never produces a result. -/
def cvSqrt8U (_ : Img ℤ) : Option (Img ℚ) := none

/-- The 8-bit local-variance chain of createDetailMask
(src/selective_bilateral.cpp:262-272): 5×5 box-blur local mean, saturating
8-bit subtraction (negative differences clamp to 0), saturating 8-bit
square, 5×5 box blur. -/
def localVar8 (sops : SBOps) (gray : Img ℤ) : Img ℤ :=
  let local_mean := sops.boxBlur8 gray
  let diff : Img ℤ :=
    ⟨gray.rows, gray.cols, fun y x => satSub8 (gray.px y x) (local_mean.px y x)⟩
  let diff_sq : Img ℤ :=
    ⟨diff.rows, diff.cols, fun y x => min 255 (diff.px y x * diff.px y x)⟩
  sops.boxBlur8 diff_sq

/-- Maximum pixel value (cv::minMaxLoc max over the nonnegative arrays the
source normalizes; fold initialized at 0). -/
def maxValQ (i : Img ℚ) : ℚ :=
  (List.range i.rows).foldl
    (fun acc y => (List.range i.cols).foldl (fun a x => max a (i.px y x)) acc) 0

/-- SelectiveBilateral::createDetailMask
(src/selective_bilateral.cpp:239-313): Sobel magnitude plus local-texture
standard deviation, normalized, combined 0.7/0.3, sigmoid-thresholded and
blurred — except that the texture branch calls cv::sqrt on a CV_8U array,
which always throws, so control always reaches the catch handler (lines
308-312) and the function returns the neutral 0.5 mask with status false.
In the (unreachable) success arm the two normalizations are embedded with
total rational division; the real code would divide 0/0 to NaN there for a
constant input, but the arm is dead. -/
def createDetailMask (sops : SBOps) (cfg : SmoothConfig) (input : Img Pix3) :
    Bool × Img ℚ :=
  let gray := sops.cvtGray input
  let magnitude : Img ℚ :=
    ⟨gray.rows, gray.cols, fun y x =>
      sops.sqrtOp ((sops.sobelX32 gray).px y x * (sops.sobelX32 gray).px y x +
        (sops.sobelY32 gray).px y x * (sops.sobelY32 gray).px y x)⟩
  match cvSqrt8U (localVar8 sops gray) with
  | none =>
    (false, ⟨input.rows, input.cols, fun _ _ => 1/2⟩)
  | some texture =>
    let norm_magnitude : Img ℚ :=
      ⟨magnitude.rows, magnitude.cols, fun y x =>
        magnitude.px y x / maxValQ magnitude⟩
    let norm_texture : Img ℚ :=
      ⟨texture.rows, texture.cols, fun y x => texture.px y x / maxValQ texture⟩
    let detail0 : Img ℚ :=
      ⟨norm_magnitude.rows, norm_magnitude.cols, fun y x =>
        (7/10) * norm_magnitude.px y x + (3/10) * norm_texture.px y x⟩
    let threshold := cfg.detail_threshold / 255
    let mask : Img ℚ :=
      ⟨detail0.rows, detail0.cols, fun y x =>
        1 / (1 + sops.expOp (-(detail0.px y x - threshold) * 10))⟩
    (true, sops.blurMaskQ mask)

/-- Concrete AdaptiveSharpening collaborators for evaluation: zero
gradients, identity blur (legitimate for a normalized kernel on a
constant image), exp ≡ 1. -/
def wASOps : ASOps :=
  { cvtGray := fun i => ⟨i.rows, i.cols, fun _ _ => 0⟩
    sobelX16 := fun g => ⟨g.rows, g.cols, fun _ _ => 0⟩
    sobelY16 := fun g => ⟨g.rows, g.cols, fun _ _ => 0⟩
    laplacian16 := fun g => ⟨g.rows, g.cols, fun _ _ => 0⟩
    blurMaskQ := id
    expOp := fun _ => 1 }

/-- Concrete SelectiveBilateral collaborators for evaluation. -/
def wSBOps : SBOps :=
  { cvtGray := fun i => ⟨i.rows, i.cols, fun _ _ => 0⟩
    sobelX32 := fun g => ⟨g.rows, g.cols, fun _ _ => 0⟩
    sobelY32 := fun g => ⟨g.rows, g.cols, fun _ _ => 0⟩
    boxBlur8 := id
    blurMaskQ := id
    expOp := fun _ => 1
    sqrtOp := fun _ => 0 }

end VideoProc

namespace VideoProc

/-! ## Theorems -/

/-! ### Ring index arithmetic and refinement lemmas for FrameBuffer -/

/-- Distinct queue positions occupy distinct slots as long as their
distance is below the capacity. -/
theorem ringIdx_ne {cap t i j : ℕ} (hij : i < j) (hj : j - i < cap) :
    (t + i) % cap ≠ (t + j) % cap := by
  intro hEq
  have hmod : i ≡ j [MOD cap] := Nat.ModEq.add_left_cancel' t hEq
  have hdvd : cap ∣ j - i := (Nat.modEq_iff_dvd' hij.le).mp hmod
  have hle : cap ≤ j - i := Nat.le_of_dvd (by omega) hdvd
  omega

/-- absQ has one entry per queued frame. -/
theorem absQ_length (fb : FrameBuffer) (h : Heap) :
    (absQ fb h).length = fb.sz := by
  simp [absQ]

/-- Specification of a successful (non-full) push: it reports success,
appends the source's pixel data to the queue, and does not disturb any
already-allocated buffer. -/
theorem pushFrame_ok_spec {fb : FrameBuffer} {h : Heap} {src : ℕ} (bl : Bool)
    (hWF : fb.WF h) (hnf : fb.full = false) :
    ∃ fb' h', pushFrame (some src) bl fb h = (.ok, fb', h') ∧
      fb'.WF h' ∧
      absQ fb' h' = absQ fb h ++ [h.mem src] ∧
      fb'.sz = fb.sz + 1 ∧ fb'.tail = fb.tail ∧ fb'.capacity = fb.capacity ∧
      h'.next = h.next + 1 ∧ (∀ b, b < h.next → h'.mem b = h.mem b) ∧
      (∀ i, i < fb'.sz → ∃ b, fb'.bufAt i = some b ∧ b < h'.next ∧
        (fb.sz ≤ i → h.next ≤ b)) ∧
      (∀ i, i < fb.sz → fb'.bufAt i = fb.bufAt i) := by
  obtain ⟨hcap, hlen, hsz, htail, hhead, hocc⟩ := hWF
  have hlt : fb.sz < fb.capacity := by
    simpa [FrameBuffer.full, FrameBuffer.size] using hnf
  set fb' : FrameBuffer :=
    { fb with
        frames := fb.frames.set fb.head (some h.next)
        head := fb.nextIndex fb.head
        sz := fb.sz + 1 } with hfb'
  set h' : Heap := ⟨h.next + 1, Function.update h.mem h.next (h.mem src)⟩ with hh'
  have hpush : pushFrame (some src) bl fb h = (.ok, fb', h') := by
    simp [pushFrame, hnf]
  have hheadlt : fb.head < fb.frames.length := by
    rw [hlen, hhead]
    exact Nat.mod_lt _ hcap
  -- slots other than the write target keep their Mat
  have hslot_old : ∀ i, i < fb.sz → fb'.bufAt i = fb.bufAt i := by
    intro i hi
    have hne : (fb.tail + i) % fb.capacity ≠ (fb.tail + fb.sz) % fb.capacity :=
      ringIdx_ne hi (by omega)
    show (fb.frames.set fb.head (some h.next)).getD ((fb.tail + i) % fb.capacity) none
        = fb.frames.getD ((fb.tail + i) % fb.capacity) none
    rw [List.getD_eq_getElem?_getD, List.getD_eq_getElem?_getD,
      List.getElem?_set_ne (by rw [hhead] at *; exact fun hh => hne hh.symm)]
  have hslot_new : fb'.bufAt fb.sz = some h.next := by
    show (fb.frames.set fb.head (some h.next)).getD ((fb.tail + fb.sz) % fb.capacity) none
        = some h.next
    rw [← hhead, List.getD_eq_getElem?_getD, List.getElem?_set_self hheadlt]
    rfl
  have hocc' : ∀ i, i < fb'.sz → ∃ b, fb'.bufAt i = some b ∧ b < h'.next ∧
      (fb.sz ≤ i → h.next ≤ b) := by
    intro i hi
    rcases Nat.lt_or_ge i fb.sz with hlt2 | hge
    · obtain ⟨b, hb, hbn⟩ := hocc i hlt2
      exact ⟨b, by rw [hslot_old i hlt2]; exact hb, by simp [hh']; omega, by omega⟩
    · have : i = fb.sz := by
        have : fb'.sz = fb.sz + 1 := rfl
        omega
      subst this
      exact ⟨h.next, hslot_new, by simp [hh'], fun _ => le_refl _⟩
  refine ⟨fb', h', hpush, ?_, ?_, rfl, rfl, rfl, rfl, ?_, hocc', hslot_old⟩
  · -- well-formedness of the new state
    refine ⟨hcap, by simp [hfb', hlen], by simp [hfb']; omega, htail, ?_, ?_⟩
    · show fb.nextIndex fb.head = (fb.tail + (fb.sz + 1)) % fb.capacity
      rw [FrameBuffer.nextIndex, hhead, Nat.mod_add_mod]
      ring_nf
    · intro i hi
      obtain ⟨b, hb, hbn, _⟩ := hocc' i hi
      exact ⟨b, hb, hbn⟩
  · -- absQ is extended by the pushed contents
    show (List.range fb'.sz).map (fun i => h'.mem ((fb'.bufAt i).getD 0))
        = (List.range fb.sz).map (fun i => h.mem ((fb.bufAt i).getD 0)) ++ [h.mem src]
    have hsz' : fb'.sz = fb.sz + 1 := rfl
    rw [hsz', List.range_succ, List.map_append, List.map_singleton]
    congr 1
    · apply List.map_congr_left
      intro i hi
      have hi' : i < fb.sz := List.mem_range.mp hi
      rw [hslot_old i hi']
      obtain ⟨b, hb, hbn⟩ := hocc i hi'
      rw [hb]
      show h'.mem b = h.mem b
      simp [hh', Function.update_noteq (by omega : b ≠ h.next)]
    · rw [hslot_new]
      simp [hh']
  · intro b hb
    show Function.update h.mem h.next (h.mem src) b = h.mem b
    exact Function.update_noteq (by omega) _ _

/-- Specification of a successful (non-empty) pop: it returns the oldest
queued frame's buffer and removes it from the queue; the heap is untouched. -/
theorem popFrame_ok_spec {fb : FrameBuffer} {h : Heap} (bl : Bool)
    (hWF : fb.WF h) (hne : fb.sz ≠ 0) :
    ∃ b fb', popFrame bl fb = (.ok, some (some b), fb') ∧
      h.mem b = (absQ fb h).getD 0 [] ∧
      fb'.WF h ∧ absQ fb' h = (absQ fb h).tail ∧
      fb'.sz = fb.sz - 1 ∧ fb'.capacity = fb.capacity ∧ fb'.head = fb.head := by
  obtain ⟨hcap, hlen, hsz, htail, hhead, hocc⟩ := hWF
  have htailmod : (fb.tail + 0) % fb.capacity = fb.tail := by
    simpa using Nat.mod_eq_of_lt htail
  obtain ⟨b, hb, hbn⟩ := hocc 0 (by omega)
  have hb0 : fb.frames.getD fb.tail none = some b := by
    have hx := hb
    unfold FrameBuffer.bufAt at hx
    rwa [htailmod] at hx
  set fb' : FrameBuffer :=
    { fb with
        frames := fb.frames.set fb.tail none
        tail := fb.nextIndex fb.tail
        sz := fb.sz - 1 } with hfb'
  have hb0' : fb.frames[fb.tail]?.getD none = some b := by
    rw [← List.getD_eq_getElem?_getD]; exact hb0
  have hpop : popFrame bl fb = (.ok, some (some b), fb') := by
    simp [popFrame, hne, hb0']
  have htail' : fb'.tail = (fb.tail + 1) % fb.capacity := rfl
  -- the slot of the (i+1)-st oldest frame survives the reset of the tail slot
  have hslot : ∀ i, i < fb.sz - 1 → fb'.bufAt i = fb.bufAt (i + 1) := by
    intro i hi
    have hidx : (fb'.tail + i) % fb'.capacity = (fb.tail + (i + 1)) % fb.capacity := by
      show ((fb.tail + 1) % fb.capacity + i) % fb.capacity = _
      rw [Nat.mod_add_mod]
      ring_nf
    have hne2 : (fb.tail + (i + 1)) % fb.capacity ≠ fb.tail := by
      intro hx
      have hx' : (fb.tail + 0) % fb.capacity = (fb.tail + (i + 1)) % fb.capacity := by
        rw [htailmod]; exact hx.symm
      exact ringIdx_ne (by omega : (0 : ℕ) < i + 1) (by omega) hx'
    show (fb.frames.set fb.tail none).getD ((fb'.tail + i) % fb'.capacity) none
        = fb.frames.getD ((fb.tail + (i + 1)) % fb.capacity) none
    rw [hidx, List.getD_eq_getElem?_getD, List.getD_eq_getElem?_getD,
      List.getElem?_set_ne (fun hx => hne2 hx.symm)]
  have habs : absQ fb' h = (absQ fb h).tail := by
    obtain ⟨k, hk⟩ : ∃ k, fb.sz = k + 1 := ⟨fb.sz - 1, by omega⟩
    show (List.range fb'.sz).map (fun i => h.mem ((fb'.bufAt i).getD 0))
        = ((List.range fb.sz).map (fun i => h.mem ((fb.bufAt i).getD 0))).tail
    have hsz' : fb'.sz = k := by simp [hfb']; omega
    rw [hk, List.range_succ_eq_map, List.map_cons, List.tail_cons, hsz',
      List.map_map]
    apply List.map_congr_left
    intro i hi
    have hik : i < k := List.mem_range.mp hi
    have := hslot i (by omega)
    simp only [Function.comp]
    rw [this]
  refine ⟨b, fb', hpop, ?_, ?_, habs, rfl, rfl, rfl⟩
  · show h.mem b = (absQ fb h).getD 0 []
    obtain ⟨k, hk⟩ : ∃ k, fb.sz = k + 1 := ⟨fb.sz - 1, by omega⟩
    show h.mem b = ((List.range fb.sz).map fun i => h.mem ((fb.bufAt i).getD 0)).getD 0 []
    rw [hk, List.range_succ_eq_map, List.map_cons]
    rw [hb]
    rfl
  · -- well-formedness of the popped state
    refine ⟨hcap, by simp [hfb', hlen], by simp [hfb']; omega,
      by rw [htail']; exact Nat.mod_lt _ hcap, ?_, ?_⟩
    · show fb.head = (fb'.tail + (fb.sz - 1)) % fb.capacity
      rw [htail', Nat.mod_add_mod, hhead]
      congr 1
      omega
    · intro i hi
      have hi' : i < fb.sz - 1 := by
        have : fb'.sz = fb.sz - 1 := rfl
        omega
      rw [hslot i hi']
      exact hocc (i + 1) (by omega)

/-- A just-constructed ring is well-formed and holds nothing. -/
theorem mkFrameBuffer_WF (cap : ℕ) (hcap : 0 < cap) (h : Heap) :
    (mkFrameBuffer cap).WF h ∧ absQ (mkFrameBuffer cap) h = [] := by
  refine ⟨⟨hcap, by simp [mkFrameBuffer], by simp [mkFrameBuffer],
    by simpa [mkFrameBuffer] using hcap, by simp [mkFrameBuffer], ?_⟩, ?_⟩
  · intro i hi
    simp [mkFrameBuffer] at hi
  · simp [absQ, mkFrameBuffer]

/-- Specification of pushing a list of frames into a ring with enough free
slots: every push succeeds and the pixel contents are appended in order;
previously allocated buffers are untouched and the new slots hold only
freshly allocated buffers. -/
theorem pushList_spec (items : List (Mat × Bool)) :
    ∀ (fb : FrameBuffer) (h : Heap), fb.WF h →
    (∀ p ∈ items, ∃ s, p.1 = some s ∧ s < h.next) →
    fb.sz + items.length ≤ fb.capacity →
    ∃ fb' h', pushList items fb h =
        (List.replicate items.length .ok, fb', h') ∧
      fb'.WF h' ∧
      absQ fb' h' = absQ fb h ++ items.map (fun p => h.mem (p.1.getD 0)) ∧
      fb'.sz = fb.sz + items.length ∧ fb'.tail = fb.tail ∧
      fb'.capacity = fb.capacity ∧
      h'.next = h.next + items.length ∧
      (∀ b, b < h.next → h'.mem b = h.mem b) ∧
      (∀ i, fb.sz ≤ i → i < fb'.sz → ∃ b, fb'.bufAt i = some b ∧
        b < h'.next ∧ h.next ≤ b) ∧
      (∀ i, i < fb.sz → fb'.bufAt i = fb.bufAt i) := by
  induction items with
  | nil =>
    intro fb h hWF _ _
    exact ⟨fb, h, rfl, hWF, by simp, by simp, rfl, rfl, by simp,
      fun _ _ => rfl, fun i hi hi' => by omega, fun i _ => rfl⟩
  | cons p rest ih =>
    intro fb h hWF hvalid hroom
    obtain ⟨s, hs, hsn⟩ := hvalid p (List.mem_cons_self p rest)
    have hnf : fb.full = false := by
      simp only [FrameBuffer.full, FrameBuffer.size, decide_eq_false_iff_not]
      simp only [List.length_cons] at hroom
      omega
    obtain ⟨fb₁, h₁, hpush, hWF₁, habs₁, hsz₁, htl₁, hcap₁, hn₁, hpres₁, hocc₁, hkeep₁⟩ :=
      @pushFrame_ok_spec fb h s p.2 hWF hnf
    obtain ⟨fb₂, h₂, hrest, hWF₂, habs₂, hsz₂, htl₂, hcap₂, hn₂, hpres₂, hocc₂, hkeep₂⟩ :=
      ih fb₁ h₁ hWF₁
        (fun q hq => by
          obtain ⟨t, ht, htn⟩ := hvalid q (List.mem_cons_of_mem p hq)
          exact ⟨t, ht, by omega⟩)
        (by simp only [List.length_cons] at hroom; omega)
    refine ⟨fb₂, h₂, ?_, hWF₂, ?_, ?_, ?_, ?_, ?_, ?_, ?_, ?_⟩
    · show pushList (p :: rest) fb h = _
      obtain ⟨m, bl⟩ := p
      simp only at hs
      subst hs
      simp only [pushList, hpush, hrest, List.length_cons, List.replicate_succ]
    · rw [habs₂, habs₁, List.append_assoc, List.singleton_append, List.map_cons]
      congr 1
      congr 1
      · rw [hs]; rfl
      · apply List.map_congr_left
        intro q hq
        obtain ⟨t, ht, htn⟩ := hvalid q (List.mem_cons_of_mem p hq)
        rw [ht]
        show h₁.mem t = h.mem t
        exact hpres₁ t htn
    · simp only [List.length_cons]; omega
    · rw [htl₂, htl₁]
    · rw [hcap₂, hcap₁]
    · simp only [List.length_cons]; omega
    · intro b hb
      rw [hpres₂ b (by omega), hpres₁ b hb]
    · intro i hi hi'
      rcases Nat.lt_or_ge i fb₁.sz with hlt | hge
      · -- the slot filled by the head push, seen after the remaining pushes
        obtain ⟨b, hb, hbn, hbge⟩ := hocc₁ i hlt
        refine ⟨b, ?_, by omega, hbge (by omega)⟩
        rw [hkeep₂ i hlt]
        exact hb
      · obtain ⟨b, hb, hbn, hbge⟩ := hocc₂ i hge hi'
        exact ⟨b, hb, hbn, by omega⟩
    · intro i hi
      rw [hkeep₂ i (by omega), hkeep₁ i hi]

/-- Specification of popping `flags.length` frames from a ring holding at
least that many: every pop succeeds, the returned pixel data is the oldest
prefix of the queue in order, and the heap is untouched. -/
theorem popList_spec (flags : List Bool) :
    ∀ (fb : FrameBuffer) (h : Heap), fb.WF h → flags.length ≤ fb.sz →
    ∃ ms fb', popList flags fb = (ms, fb') ∧
      ms.map (matData h) = (absQ fb h).take flags.length ∧
      ms.length = flags.length ∧
      fb'.WF h ∧ absQ fb' h = (absQ fb h).drop flags.length ∧
      fb'.sz = fb.sz - flags.length ∧ fb'.capacity = fb.capacity := by
  induction flags with
  | nil =>
    intro fb h hWF _
    exact ⟨[], fb, rfl, by simp, rfl, hWF, by simp, by simp, rfl⟩
  | cons bl rest ih =>
    intro fb h hWF hlen
    simp only [List.length_cons] at hlen
    have hne : fb.sz ≠ 0 := by omega
    obtain ⟨b, fb₁, hpop, hdata, hWF₁, habs₁, hsz₁, hcap₁, hhd₁⟩ :=
      popFrame_ok_spec bl hWF hne
    obtain ⟨ms, fb₂, hrest, hmap, hmslen, hWF₂, habs₂, hsz₂, hcap₂⟩ :=
      ih fb₁ h hWF₁ (by omega)
    obtain ⟨a, t, hat⟩ : ∃ a t, absQ fb h = a :: t := by
      have : absQ fb h ≠ [] := by
        intro hx
        have := absQ_length fb h
        rw [hx] at this
        simp at this
        omega
      exact List.exists_cons_of_ne_nil this
    have hdata' : h.mem b = a := by rw [hdata, hat]; rfl
    refine ⟨some (some b) :: ms, fb₂, ?_, ?_, ?_, hWF₂, ?_, ?_, hcap₂.trans hcap₁⟩
    · simp [popList, hpop, hrest]
    · rw [List.map_cons, hmap, habs₁, hat]
      show matData h (some (some b)) :: t.take rest.length = _
      simp only [List.length_cons, List.take_succ_cons]
      show h.mem b :: t.take rest.length = a :: t.take rest.length
      rw [hdata']
    · simp [hmslen]
    · rw [habs₂, habs₁, hat]
      rfl
    · simp only [List.length_cons]
      omega

/-- C1 counterexample: with the NEURAL algorithm (REAL_ESRGAN) active and a
processing time far above 1.5 × target, adjustQualityForPerformance leaves
the algorithm REAL_ESRGAN instead of demoting it to BICUBIC as the claim
states: only SUPER_RES is ever demoted (src/upscaler.cpp:745). -/
theorem c1_neural_not_demoted_counterexample :
    (adjustQualityForPerformance .REAL_ESRGAN 100 1).1 = .REAL_ESRGAN ∧
      (adjustQualityForPerformance .REAL_ESRGAN 100 1).1 ≠ .BICUBIC := by
  constructor
  · rfl
  · decide

/-- C1 (amended): adjustQualityForPerformance demotes to BICUBIC exactly
when the active algorithm is ENHANCED (SUPER_RES) and the processing time
exceeds 1.5 × the target; with a nonnegative target time and
processing_time ≤ target_time the algorithm is unchanged; under NEURAL
(REAL_ESRGAN) it is always unchanged; and the result is never anything but
the old algorithm or BICUBIC (no auto-upgrade). -/
theorem c1_adjust_quality_policy (alg : Algorithm) (p t : ℚ) (ht : 0 ≤ t) :
    (alg = .SUPER_RES → p > t * 1.5 →
        adjustQualityForPerformance alg p t = (.BICUBIC, true)) ∧
      (p ≤ t → adjustQualityForPerformance alg p t = (alg, false)) ∧
      (adjustQualityForPerformance .REAL_ESRGAN p t).1 = .REAL_ESRGAN ∧
      ((adjustQualityForPerformance alg p t).1 = alg ∨
        (adjustQualityForPerformance alg p t).1 = .BICUBIC) := by
  refine ⟨?_, ?_, ?_, ?_⟩
  · intro ha hp
    simp [adjustQualityForPerformance, ha, hp]
  · intro hpt
    have : ¬ p > t * 1.5 := by nlinarith
    simp [adjustQualityForPerformance, this]
  · simp [adjustQualityForPerformance]
  · by_cases h : alg = .SUPER_RES ∧ p > t * 1.5
    · right; simp [adjustQualityForPerformance, h]
    · left; simp [adjustQualityForPerformance, h]

/-- C1 witness: the amended policy evaluated at concrete inputs. -/
theorem c1_adjust_quality_policy_witness :
    (Algorithm.SUPER_RES = .SUPER_RES → (10 : ℚ) > 2 * 1.5 →
        adjustQualityForPerformance .SUPER_RES 10 2 = (.BICUBIC, true)) ∧
      ((10 : ℚ) ≤ 2 → adjustQualityForPerformance .SUPER_RES 10 2 = (.SUPER_RES, false)) ∧
      (adjustQualityForPerformance .REAL_ESRGAN 10 2).1 = .REAL_ESRGAN ∧
      ((adjustQualityForPerformance .SUPER_RES 10 2).1 = .SUPER_RES ∨
        (adjustQualityForPerformance .SUPER_RES 10 2).1 = .BICUBIC) :=
  c1_adjust_quality_policy .SUPER_RES 10 2 (by norm_num)

/-- C2: pushing a frame into a full ring with blocking=false returns false
and leaves the occupancy count and every buffered slot (indeed the whole
ring state and heap) unchanged; with blocking=true the call suspends, and
once a pop has freed a slot the ring is no longer full and the retried push
succeeds, appending the frame's pixel data to the queue. -/
theorem c2_ring_overflow_policy (fb : FrameBuffer) (h : Heap) (src : ℕ)
    (bl : Bool) (hWF : fb.WF h) (hfull : fb.full = true) :
    pushFrame (some src) false fb h = (.fail, fb, h) ∧
      pushFrame (some src) true fb h = (.blocked, fb, h) ∧
      ∃ b fb', popFrame bl fb = (.ok, some (some b), fb') ∧
        fb'.full = false ∧
        ∃ fb₂ h₂, pushFrame (some src) true fb' h = (.ok, fb₂, h₂) ∧
          absQ fb₂ h₂ = absQ fb' h ++ [h.mem src] := by
  obtain ⟨hcap, hlen, hsz, htail, hhead, hocc⟩ := hWF
  have hszcap : fb.sz = fb.capacity := by
    have : fb.capacity ≤ fb.sz := by
      simpa [FrameBuffer.full, FrameBuffer.size] using hfull
    omega
  refine ⟨by simp [pushFrame, hfull], by simp [pushFrame, hfull], ?_⟩
  obtain ⟨b, fb', hpop, hdata, hWF', habs', hsz', hcap', hhd'⟩ :=
    popFrame_ok_spec bl ⟨hcap, hlen, hsz, htail, hhead, hocc⟩ (by omega)
  have hnf : fb'.full = false := by
    simp only [FrameBuffer.full, FrameBuffer.size, decide_eq_false_iff_not]
    omega
  obtain ⟨fb₂, h₂, hpush, _, habs₂, _, _, _, _, _, _, _⟩ :=
    @pushFrame_ok_spec fb' h src true hWF' hnf
  exact ⟨b, fb', hpop, hnf, fb₂, h₂, hpush, habs₂⟩

/-- C2 witness: a capacity-1 ring holding one frame. -/
theorem c2_ring_overflow_policy_witness :
    pushFrame (some 0) false ⟨1, 0, 0, 1, [some 1]⟩ ⟨2, fun b => [b]⟩ =
        (.fail, ⟨1, 0, 0, 1, [some 1]⟩, ⟨2, fun b => [b]⟩) ∧
      pushFrame (some 0) true ⟨1, 0, 0, 1, [some 1]⟩ ⟨2, fun b => [b]⟩ =
        (.blocked, ⟨1, 0, 0, 1, [some 1]⟩, ⟨2, fun b => [b]⟩) ∧
      ∃ b fb', popFrame false ⟨1, 0, 0, 1, [some 1]⟩ = (.ok, some (some b), fb') ∧
        fb'.full = false ∧
        ∃ fb₂ h₂, pushFrame (some 0) true fb'
            ⟨2, fun b => [b]⟩ = (.ok, fb₂, h₂) ∧
          absQ fb₂ h₂ = absQ fb' ⟨2, fun b => [b]⟩ ++
            [Heap.mem ⟨2, fun b => [b]⟩ 0] :=
  c2_ring_overflow_policy ⟨1, 0, 0, 1, [some 1]⟩ ⟨2, fun b => [b]⟩ 0 false
    ⟨Nat.one_pos, rfl, le_refl 1, Nat.one_pos, rfl,
      fun i _ => ⟨1, by simp [FrameBuffer.bufAt, Nat.mod_one], by norm_num⟩⟩
    rfl

/-- C3: starting from a freshly constructed ring of positive capacity,
pushing N ≤ capacity frames (any mix of blocking flags) all succeed with
size() equal to k after the k-th push; popping N times (any mix of blocking
flags) returns the pushed pixel data in push (FIFO) order with size() equal
to N−k after the k-th pop; and full() and empty() are never simultaneously
true on any ring of positive capacity. -/
theorem c3_ring_fifo (cap : ℕ) (h : Heap) (items : List (ℕ × Bool))
    (pflags : List Bool) (hcap : 0 < cap) (hN : items.length ≤ cap)
    (hpf : pflags.length = items.length)
    (hvalid : ∀ p ∈ items, p.1 < h.next) :
    (pushList (items.map fun p => (some p.1, p.2)) (mkFrameBuffer cap) h).1 =
        List.replicate items.length .ok ∧
      (∀ k, k ≤ items.length →
        ((pushList ((items.take k).map fun p => (some p.1, p.2))
            (mkFrameBuffer cap) h).2.1).size = k) ∧
      ((popList pflags
          (pushList (items.map fun p => (some p.1, p.2))
            (mkFrameBuffer cap) h).2.1).1).map
          (matData (pushList (items.map fun p => (some p.1, p.2))
            (mkFrameBuffer cap) h).2.2) =
        items.map (fun p => h.mem p.1) ∧
      (∀ k, k ≤ items.length →
        ((popList (pflags.take k)
            (pushList (items.map fun p => (some p.1, p.2))
              (mkFrameBuffer cap) h).2.1).2).size = items.length - k) ∧
      (∀ fb : FrameBuffer, 0 < fb.capacity →
        ¬(fb.full = true ∧ fb.emptyB = true)) := by
  obtain ⟨hWF0, habs0⟩ := mkFrameBuffer_WF cap hcap h
  have hvalid' : ∀ q ∈ items.map fun p => ((some p.1 : Mat), p.2),
      ∃ s, q.1 = some s ∧ s < h.next := by
    intro q hq
    obtain ⟨p, hp, hpq⟩ := List.mem_map.mp hq
    exact ⟨p.1, by rw [← hpq], hvalid p hp⟩
  obtain ⟨fb₁, h₁, hpl, hWF₁, habs₁, hsz₁, _, hcap₁, _, _, _, _⟩ :=
    pushList_spec (items.map fun p => (some p.1, p.2)) (mkFrameBuffer cap) h
      hWF0 hvalid' (by simpa [mkFrameBuffer] using hN)
  have hcontents : absQ fb₁ h₁ = items.map fun p => h.mem p.1 := by
    rw [habs₁, habs0, List.nil_append, List.map_map]
    rfl
  have hsz₁' : fb₁.sz = items.length := by
    simpa [mkFrameBuffer] using hsz₁
  refine ⟨?_, ?_, ?_, ?_, ?_⟩
  · rw [hpl]
    simp
  · intro k hk
    have hvk : ∀ q ∈ (items.take k).map fun p => ((some p.1 : Mat), p.2),
        ∃ s, q.1 = some s ∧ s < h.next := by
      intro q hq
      obtain ⟨p, hp, hpq⟩ := List.mem_map.mp hq
      exact ⟨p.1, by rw [← hpq], hvalid p (List.mem_of_mem_take hp)⟩
    obtain ⟨fbk, hk', hplk, _, _, hszk, _, _, _, _, _, _⟩ :=
      pushList_spec ((items.take k).map fun p => (some p.1, p.2))
        (mkFrameBuffer cap) h hWF0 hvk
        (by
          simp only [List.length_map, List.length_take, mkFrameBuffer]
          omega)
    rw [hplk]
    show fbk.sz = k
    rw [hszk]
    simp [mkFrameBuffer, List.length_take]
    omega
  · obtain ⟨ms, fb₂, hpls, hmap, _, _, _, _, _⟩ :=
      popList_spec pflags fb₁ h₁ hWF₁ (by omega)
    rw [hpl]
    show ((popList pflags fb₁).1).map (matData h₁) = _
    rw [hpls]
    show ms.map (matData h₁) = _
    rw [hmap, hcontents]
    rw [List.take_of_length_le]
    simp [hpf]
  · intro k hk
    obtain ⟨ms, fb₂, hpls, _, _, _, _, hsz₂, _⟩ :=
      popList_spec (pflags.take k) fb₁ h₁ hWF₁
        (by simp only [List.length_take]; omega)
    rw [hpl]
    show ((popList (pflags.take k) fb₁).2).size = items.length - k
    rw [hpls]
    show fb₂.sz = items.length - k
    rw [hsz₂, hsz₁']
    simp only [List.length_take]
    omega
  · intro fb hc hfe
    obtain ⟨hf, he⟩ := hfe
    have h1 : fb.capacity ≤ fb.sz := by
      simpa [FrameBuffer.full, FrameBuffer.size] using hf
    have h2 : fb.sz = 0 := by
      simpa [FrameBuffer.emptyB, FrameBuffer.size] using he
    omega

/-- C3 witness: two frames through a fresh capacity-2 ring. -/
theorem c3_ring_fifo_witness :
    (pushList ([(0, true), (1, false)].map fun p => ((some p.1 : Mat), p.2))
          (mkFrameBuffer 2) ⟨2, fun b => [b]⟩).1 =
        List.replicate 2 .ok ∧
      (∀ k, k ≤ ([(0, true), (1, false)] : List (ℕ × Bool)).length →
        ((pushList (([(0, true), (1, false)].take k).map
              fun p => ((some p.1 : Mat), p.2))
            (mkFrameBuffer 2) ⟨2, fun b => [b]⟩).2.1).size = k) ∧
      ((popList [false, true]
          (pushList ([(0, true), (1, false)].map fun p => ((some p.1 : Mat), p.2))
            (mkFrameBuffer 2) ⟨2, fun b => [b]⟩).2.1).1).map
          (matData (pushList
            ([(0, true), (1, false)].map fun p => ((some p.1 : Mat), p.2))
            (mkFrameBuffer 2) ⟨2, fun b => [b]⟩).2.2) =
        [(0, true), (1, false)].map (fun p => Heap.mem ⟨2, fun b => [b]⟩ p.1) ∧
      (∀ k, k ≤ ([(0, true), (1, false)] : List (ℕ × Bool)).length →
        ((popList ([false, true].take k)
            (pushList ([(0, true), (1, false)].map
                fun p => ((some p.1 : Mat), p.2))
              (mkFrameBuffer 2) ⟨2, fun b => [b]⟩).2.1).2).size =
          ([(0, true), (1, false)] : List (ℕ × Bool)).length - k) ∧
      (∀ fb : FrameBuffer, 0 < fb.capacity →
        ¬(fb.full = true ∧ fb.emptyB = true)) :=
  c3_ring_fifo 2 ⟨2, fun b => [b]⟩ [(0, true), (1, false)] [false, true]
    (by norm_num) (by norm_num) rfl (by decide)

/-- C10: pushFrame deep-copies the pixel data: after a successful push,
mutating the caller's frame buffer does not change the data the eventual
popFrame of that slot returns.  Any number of earlier frames may be queued
in front; the final pop (the one for the pushed slot) still returns the
pixel data as it was at push time. -/
theorem c10_push_deep_copy (cap : ℕ) (h : Heap) (priors : List (ℕ × Bool))
    (src : ℕ) (bl : Bool) (d : List ℕ) (pflags : List Bool)
    (hcap : 0 < cap) (hN : priors.length + 1 ≤ cap)
    (hpf : pflags.length = priors.length + 1)
    (hvalid : ∀ p ∈ priors, p.1 < h.next) (hsrc : src < h.next) :
    (((popList pflags
          (pushList ((priors.map fun p => (some p.1, p.2)) ++ [(some src, bl)])
            (mkFrameBuffer cap) h).2.1).1).map
        (matData ((pushList ((priors.map fun p => (some p.1, p.2))
            ++ [(some src, bl)]) (mkFrameBuffer cap) h).2.2.write src d))).getLast?
      = some (h.mem src) := by
  obtain ⟨hWF0, habs0⟩ := mkFrameBuffer_WF cap hcap h
  set items : List (Mat × Bool) :=
    (priors.map fun p => (some p.1, p.2)) ++ [(some src, bl)] with hitems
  have hvalid' : ∀ q ∈ items, ∃ s, q.1 = some s ∧ s < h.next := by
    intro q hq
    rw [hitems, List.mem_append] at hq
    rcases hq with hq | hq
    · obtain ⟨p, hp, hpq⟩ := List.mem_map.mp hq
      exact ⟨p.1, by rw [← hpq], hvalid p hp⟩
    · simp only [List.mem_singleton] at hq
      exact ⟨src, by rw [hq], hsrc⟩
  obtain ⟨fb₁, h₁, hpl, hWF₁, habs₁, hsz₁, _, hcap₁, hn₁, _, hocc₁, _⟩ :=
    pushList_spec items (mkFrameBuffer cap) h hWF0 hvalid'
      (by simp [mkFrameBuffer, hitems]; omega)
  have hsz₁' : fb₁.sz = priors.length + 1 := by
    simp [mkFrameBuffer, hitems] at hsz₁
    simpa using hsz₁
  -- the caller's in-place write cannot touch any ring slot: all ring
  -- buffers were freshly allocated by the pushes, hence have ids ≥ h.next > src
  set h₂ : Heap := h₁.write src d with hh₂
  have hWF₂ : fb₁.WF h₂ := by
    obtain ⟨a1, a2, a3, a4, a5, a6⟩ := hWF₁
    exact ⟨a1, a2, a3, a4, a5, fun i hi => by
      obtain ⟨b, hb, hbn⟩ := a6 i hi
      exact ⟨b, hb, hbn⟩⟩
  have habs₂ : absQ fb₁ h₂ = absQ fb₁ h₁ := by
    show (List.range fb₁.sz).map _ = (List.range fb₁.sz).map _
    apply List.map_congr_left
    intro i hi
    have hi' : i < fb₁.sz := List.mem_range.mp hi
    obtain ⟨b, hb, _, hbge⟩ := hocc₁ i (by simp [mkFrameBuffer]) hi'
    rw [hb]
    show h₂.mem b = h₁.mem b
    rw [hh₂]
    show Function.update h₁.mem src d b = h₁.mem b
    exact Function.update_noteq (by omega) _ _
  have hcontents : absQ fb₁ h₁ =
      (priors.map fun p => h.mem p.1) ++ [h.mem src] := by
    rw [habs₁, habs0, List.nil_append, hitems, List.map_append, List.map_map]
    rfl
  obtain ⟨ms, fb₂, hpls, hmap, hmslen, _, _, _, _⟩ :=
    popList_spec pflags fb₁ h₂ hWF₂ (by omega)
  rw [hpl]
  show (((popList pflags fb₁).1).map (matData h₂)).getLast? = some (h.mem src)
  rw [hpls]
  show (ms.map (matData h₂)).getLast? = some (h.mem src)
  rw [hmap, habs₂, hcontents, List.take_of_length_le]
  · exact List.getLast?_concat _
  · simp [hpf]

/-- C10 witness: one prior frame, then the probed frame, into a fresh
capacity-2 ring; the caller overwrites its buffer after pushing. -/
theorem c10_push_deep_copy_witness :
    (((popList [true, false]
          (pushList (([(0, true)].map fun p => ((some p.1 : Mat), p.2))
              ++ [(some 1, false)])
            (mkFrameBuffer 2) ⟨2, fun b => [b, b]⟩).2.1).1).map
        (matData ((pushList (([(0, true)].map fun p => ((some p.1 : Mat), p.2))
            ++ [(some 1, false)]) (mkFrameBuffer 2)
            ⟨2, fun b => [b, b]⟩).2.2.write 1 [9, 9, 9]))).getLast?
      = some (Heap.mem ⟨2, fun b => [b, b]⟩ 1) :=
  c10_push_deep_copy 2 ⟨2, fun b => [b, b]⟩ [(0, true)] 1 false [9, 9, 9]
    [true, false] (by norm_num) (by norm_num) rfl (by decide) (by norm_num)

/-! ### Dimension lemmas for the upscale paths -/

/-- enhanceColors preserves image dimensions. -/
theorem enhanceColors_dims (ops : CvOps) (hd : ops.DimsOK) (i : Img Pix3) :
    (enhanceColors ops i).cols = i.cols ∧ (enhanceColors ops i).rows = i.rows := by
  have hlab := hd.2.2.2.2.1
  have hbgr := hd.2.2.2.2.2.1
  constructor
  · show (ops.cvtBGRofLab (mergeCh (ch0 (ops.cvtLab i))
      (scaleCh (11/10) (ch1 (ops.cvtLab i)))
      (scaleCh (11/10) (ch2 (ops.cvtLab i))))).cols = i.cols
    rw [(hbgr _).1]
    exact (hlab i).1
  · show (ops.cvtBGRofLab (mergeCh (ch0 (ops.cvtLab i))
      (scaleCh (11/10) (ch1 (ops.cvtLab i)))
      (scaleCh (11/10) (ch2 (ops.cvtLab i))))).rows = i.rows
    rw [(hbgr _).2]
    exact (hlab i).2

/-- upscaleSuperRes produces exactly the target dimensions. -/
theorem upscaleSuperRes_dims (ops : CvOps) (hd : ops.DimsOK) (tw th : ℕ)
    (i : Img Pix3) :
    (upscaleSuperRes ops tw th i).cols = tw ∧
      (upscaleSuperRes ops tw th i).rows = th := by
  have hres1 := hd.2.1
  have hf1 := hd.2.2.1
  have hycc := hd.2.2.2.2.2.2
  obtain ⟨hc, hr⟩ := enhanceColors_dims ops hd
    (ops.cvtBGRofYCrCb (mergeCh
      (enhanceDetailsY ops (ops.resize1 (ops.bilateral1 (ch0 (ops.cvtYCrCb i))) tw th))
      (ops.resize1 (ch1 (ops.cvtYCrCb i)) tw th)
      (ops.resize1 (ch2 (ops.cvtYCrCb i)) tw th)))
  constructor
  · show (enhanceColors ops (ops.cvtBGRofYCrCb (mergeCh
      (enhanceDetailsY ops (ops.resize1 (ops.bilateral1 (ch0 (ops.cvtYCrCb i))) tw th))
      (ops.resize1 (ch1 (ops.cvtYCrCb i)) tw th)
      (ops.resize1 (ch2 (ops.cvtYCrCb i)) tw th)))).cols = tw
    rw [hc, (hycc _).1]
    show (ops.filter2D1 (ops.resize1 (ops.bilateral1 (ch0 (ops.cvtYCrCb i))) tw th)).cols = tw
    rw [(hf1 _).1]
    exact (hres1 _ tw th).1
  · show (enhanceColors ops (ops.cvtBGRofYCrCb (mergeCh
      (enhanceDetailsY ops (ops.resize1 (ops.bilateral1 (ch0 (ops.cvtYCrCb i))) tw th))
      (ops.resize1 (ch1 (ops.cvtYCrCb i)) tw th)
      (ops.resize1 (ch2 (ops.cvtYCrCb i)) tw th)))).rows = th
    rw [hr, (hycc _).2]
    show (ops.filter2D1 (ops.resize1 (ops.bilateral1 (ch0 (ops.cvtYCrCb i))) tw th)).rows = th
    rw [(hf1 _).2]
    exact (hres1 _ tw th).2

/-- CPUImpl::upscale produces exactly the target dimensions whenever it
succeeds, for every algorithm. -/
theorem cpuUpscale_dims (ops : CvOps) (hd : ops.DimsOK) (alg : Algorithm)
    (tw th : ℕ) (input out : Img Pix3)
    (hup : cpuUpscale ops alg tw th input = some out) :
    out.cols = tw ∧ out.rows = th := by
  unfold cpuUpscale at hup
  by_cases hemp : input.isEmpty
  · simp [hemp] at hup
  · simp only [hemp, Bool.false_eq_true, if_false] at hup
    by_cases hsr : alg = .SUPER_RES
    · simp only [hsr, if_true] at hup
      obtain rfl := Option.some_injective _ hup.symm
      exact upscaleSuperRes_dims ops hd tw th input
    · simp only [hsr, if_false] at hup
      by_cases hbc : alg = .BICUBIC
      · simp only [hbc, if_true] at hup
        obtain rfl := Option.some_injective _ hup.symm
        exact ⟨(hd.1 (ops.gaussianBlur input) tw th).1,
          (hd.1 (ops.gaussianBlur input) tw th).2⟩
      · simp only [hbc, if_false] at hup
        obtain rfl := Option.some_injective _ hup.symm
        by_cases hne : alg = .NEAREST
        · simp only [hne, if_true]
          exact hd.1 input tw th
        · simp only [hne, if_false]
          refine ⟨?_, ?_⟩
          · show (ops.filter2D3 (ops.resize input tw th)).cols = tw
            rw [(hd.2.2.2.1 _).1]
            exact (hd.1 input tw th).1
          · show (ops.filter2D3 (ops.resize input tw th)).rows = th
            rw [(hd.2.2.2.1 _).2]
            exact (hd.1 input tw th).2

/-- DnnSuperRes::upscale produces exactly the target dimensions whenever it
succeeds, for the model types the Upscaler ever constructs (anything but
the dead REAL_ESRGAN model type) and a positive configured target. -/
theorem dnnUpscale_dims (ops : CvOps) (hd : ops.DimsOK) (d : DnnState)
    (input out : Img Pix3) (hmt : d.model_type ≠ .REAL_ESRGAN)
    (htw : 0 < d.target_width) (hth : 0 < d.target_height)
    (hup : dnnUpscale ops d input = some out) :
    out.cols = d.target_width ∧ out.rows = d.target_height := by
  unfold dnnUpscale at hup
  by_cases hrdy : d.ready = false
  · simp [hrdy] at hup
  · simp only [hrdy, if_false] at hup
    by_cases hemp : input.isEmpty
    · simp [hemp] at hup
    · simp only [hemp, Bool.false_eq_true, if_false, hmt, if_neg] at hup
      rcases hu : ops.upsample input with _ | o
      · rw [hu] at hup
        simp only [htw, hth, and_true, true_and, if_true] at hup
        obtain rfl := Option.some_injective _ hup.symm
        exact hd.1 input d.target_width d.target_height
      · rw [hu] at hup
        obtain rfl := Option.some_injective _ hup.symm
        by_cases hsz : o.cols ≠ d.target_width ∨ o.rows ≠ d.target_height
        · simp only [htw, hth, hsz, and_true, true_and, if_true]
          exact hd.1 o d.target_width d.target_height
        · simp only [htw, hth, hsz, and_true, true_and, and_false, if_false]
          push_neg at hsz
          exact hsz

/-- The non-DNN tail of Upscaler::upscale produces exactly the configured
target dimensions whenever it succeeds. -/
theorem upscaleStd_dims (ops : CvOps) (hd : ops.DimsOK) (st : UpscalerState)
    (working out : Img Pix3) (hup : upscaleStd ops st working = some out) :
    out.cols = st.target_width ∧ out.rows = st.target_height := by
  unfold upscaleStd at hup
  cases himpl : st.impl with
  | none =>
    rw [himpl] at hup
    simp only at hup
    obtain rfl := Option.some_injective _ hup.symm
    exact hd.1 working st.target_width st.target_height
  | some a =>
    rw [himpl] at hup
    exact cpuUpscale_dims ops hd a _ _ working out hup

/-- C8: for every selected algorithm (NEAREST, BILINEAR, BICUBIC, LANCZOS,
ENHANCED/SUPER_RES, NEURAL/REAL_ESRGAN), every outcome of the DNN
initialization, and every valid input, whenever Upscaler::upscale succeeds
the output's dimensions equal the configured (positive) target width and
height — assuming only the documented dimension contracts of the external
OpenCV routines. -/
theorem c8_upscale_output_shape (ops : CvOps) (alg : Algorithm)
    (tw th : ℕ) (dnnOk : Bool) (input out : Img Pix3)
    (htw : 0 < tw) (hth : 0 < th) (hd : ops.DimsOK)
    (hup : upscaleU ops (initImpl alg tw th dnnOk) input = some out) :
    out.cols = tw ∧ out.rows = th := by
  have hnz : ¬(tw = 0 ∨ th = 0) := by omega
  unfold upscaleU at hup
  by_cases hemp : input.isEmpty
  · simp [hemp] at hup
  · simp only [hemp, Bool.false_eq_true, if_false] at hup
    by_cases hdnn : (alg = .SUPER_RES ∨ alg = .REAL_ESRGAN) ∧ dnnOk = true
    · have hst : initImpl alg tw th dnnOk =
          ⟨alg, tw, th, none,
            some ⟨if alg = .REAL_ESRGAN then .EDSR else .FSRCNN, tw, th, true⟩⟩ := by
        unfold initImpl
        rw [if_neg hnz, if_pos hdnn]
      rw [hst] at hup
      simp only at hup
      by_cases hsr : alg = .SUPER_RES
      · simp only [hsr, true_and, if_true] at hup
        have hmt : (⟨if Algorithm.SUPER_RES = Algorithm.REAL_ESRGAN then
            ModelType.EDSR else ModelType.FSRCNN, tw, th, true⟩ : DnnState).model_type
            ≠ ModelType.REAL_ESRGAN := by
          show ModelType.FSRCNN ≠ ModelType.REAL_ESRGAN
          decide
        exact dnnUpscale_dims ops hd _ _ out hmt htw hth hup
      · simp only [hsr, false_and, if_false] at hup
        exact upscaleStd_dims ops hd _ _ out hup
    · have hst : initImpl alg tw th dnnOk = ⟨alg, tw, th, some alg, none⟩ := by
        unfold initImpl
        rw [if_neg hnz, if_neg hdnn]
      rw [hst] at hup
      simp only at hup
      exact upscaleStd_dims ops hd _ _ out hup

/-- The trivial collaborators satisfy the dimension contracts. -/
theorem trivialCvOps_dims : trivialCvOps.DimsOK :=
  ⟨fun _ _ _ => ⟨rfl, rfl⟩, fun _ _ _ => ⟨rfl, rfl⟩, fun _ => ⟨rfl, rfl⟩,
   fun _ => ⟨rfl, rfl⟩, fun _ => ⟨rfl, rfl⟩, fun _ => ⟨rfl, rfl⟩,
   fun _ => ⟨rfl, rfl⟩⟩

/-- C8 witness: trivially dimension-correct external collaborators, the
BILINEAR algorithm, target 128×128, a 64×64 input. -/
theorem c8_upscale_output_shape_witness :
    ∃ o : Img Pix3, upscaleU trivialCvOps (initImpl .BILINEAR 128 128 false)
        ⟨64, 64, fun _ _ => (1, 2, 3)⟩ = some o ∧ o.cols = 128 ∧ o.rows = 128 :=
  ⟨⟨128, 128, fun _ _ => (0, 0, 0)⟩, rfl,
    c8_upscale_output_shape trivialCvOps .BILINEAR 128 128 false
      ⟨64, 64, fun _ _ => (1, 2, 3)⟩ ⟨128, 128, fun _ _ => (0, 0, 0)⟩
      (by norm_num) (by norm_num) trivialCvOps_dims rfl⟩

/-! ### TemporalConsistency theorems -/

/-- A freshly constructed (or reset) stabilizer returns the first frame
unchanged and buffers it. -/
theorem tcProcess_fresh (ops : TCOps) (cfg : TCConfig) (f : Img Pix3)
    (hne : f.isEmpty = false) :
    tcProcess ops cfg tcReset f = some (some f, ⟨[f], [ops.cvtGray f], []⟩) := by
  unfold tcProcess
  simp [hne, tcReset]

/-- C6: after every completed process call from an invariant state (with a
positive buffer size and a flow collaborator that succeeds), the three
parallel history deques again satisfy len(gray) = len(frames),
len(flow) = len(frames) − 1 (0 when frames ≤ 1), and none exceeds
buffer_size; reset empties all three together. -/
theorem c6_history_invariant (ops : TCOps) (cfg : TCConfig)
    (hbs : 1 ≤ cfg.buffer_size)
    (hflow : ∀ a b, (ops.flowOp a b).isEmpty = false)
    (s : TCState) (f : Img Pix3) (out : Option (Img Pix3)) (s2 : TCState)
    (hInv : TCInv cfg s)
    (hp : tcProcess ops cfg s f = some (out, s2)) :
    TCInv cfg s2 ∧ TCInv cfg tcReset ∧
      tcReset.frames = [] ∧ tcReset.grays = [] ∧ tcReset.flows = [] := by
  obtain ⟨hg, hfl, hfb, hgb, hlb⟩ := hInv
  refine ⟨?_, ⟨rfl, rfl, Nat.zero_le _, Nat.zero_le _, Nat.zero_le _⟩,
    rfl, rfl, rfl⟩
  unfold tcProcess at hp
  by_cases hemp : f.isEmpty = true
  · simp [hemp] at hp
  · simp only [Bool.not_eq_true] at hemp
    simp only [hemp, Bool.false_eq_true, if_false] at hp
    by_cases hfr : s.frames.isEmpty = true
    · simp only [hfr, if_true] at hp
      have hpair := Option.some_injective _ hp
      injection hpair with h1 h2
      subst h2
      exact ⟨rfl, rfl, by simpa using hbs, by simpa using hbs, by simp⟩
    · simp only [Bool.not_eq_true] at hfr
      simp only [hfr, Bool.false_eq_true, if_false] at hp
      have hgr : s.grays.isEmpty = false := by
        have hlen := hg
        cases hx : s.grays with
        | nil =>
          exfalso
          rw [hx] at hlen
          simp only [List.length_nil] at hlen
          have hfe : s.frames = [] := List.length_eq_zero.mp hlen.symm
          rw [hfe] at hfr
          simp at hfr
        | cons a l => rfl
      simp only [hgr, Bool.false_eq_true, if_false, eq_self_iff_true, if_true,
        hflow, and_true] at hp
      by_cases hsc : detectSceneChange ops cfg
          (s.grays.getLast?.getD (ops.cvtGray f)) (ops.cvtGray f) = true
      · rw [hsc] at hp
        simp only [Bool.true_eq_false, if_false, eq_self_iff_true, if_true,
          tcReset, List.nil_append] at hp
        have hpair := Option.some_injective _ hp
        injection hpair with h1 h2
        subst h2
        exact ⟨rfl, rfl, by simpa using hbs, by simpa using hbs, by simp⟩
      · simp only [Bool.not_eq_true] at hsc
        rw [hsc] at hp
        simp only [eq_self_iff_true, if_true] at hp
        have hpair := Option.some_injective _ hp
        injection hpair with h1 h2
        subst h2
        have hfrne : s.frames ≠ [] := by
          simpa [List.isEmpty_iff] using hfr
        have hfpos : 1 ≤ s.frames.length := by
          cases hx : s.frames with
          | nil => exact absurd hx hfrne
          | cons a l => simp [hx]
        refine ⟨?_, ?_, ?_, ?_, ?_⟩ <;>
          simp only [trimTo, trimKeepBelow, List.length_drop,
            List.length_append, List.length_cons, List.length_nil,
            List.length_singleton] <;> omega

/-- C6 witness: one processed frame from a fresh state under a
buffer-size-2 configuration with an always-succeeding flow collaborator. -/
theorem c6_history_invariant_witness :
    TCInv ⟨2, 1, 15, 100⟩ ⟨[whiteC], [wfTCOps.cvtGray whiteC], []⟩ ∧
      TCInv ⟨2, 1, 15, 100⟩ tcReset ∧
      tcReset.frames = [] ∧ tcReset.grays = [] ∧ tcReset.flows = [] :=
  c6_history_invariant wfTCOps ⟨2, 1, 15, 100⟩ (by norm_num)
    (fun a b => rfl) tcReset whiteC (some whiteC)
    ⟨[whiteC], [wfTCOps.cvtGray whiteC], []⟩
    ⟨rfl, rfl, Nat.zero_le _, Nat.zero_le _, Nat.zero_le _⟩
    (tcProcess_fresh wfTCOps ⟨2, 1, 15, 100⟩ whiteC rfl)

/-- C9: at a fixed pixel with positive edge-mask value (at most 1, as edge
masks are) and positive unsharp detail value, and with positive overall
strength and nonnegative per-region multipliers, raising edge_strength
strictly increases the magnitude of the unsharp contribution, and the
clamped output pixel never decreases (saturation). -/
theorem c9_edge_strength_monotone (cfg : SharpenConfig) (es₂ e m orig : ℚ)
    (hS : 0 < cfg.strength) (he : 0 < e) (he1 : e ≤ 1)
    (hss : 0 ≤ cfg.smooth_strength) (hes : 0 ≤ cfg.edge_strength)
    (hlt : cfg.edge_strength < es₂) (hm : 0 < m) :
    |unsharpContribution cfg e m| <
        |unsharpContribution { cfg with edge_strength := es₂ } e m| ∧
      unsharpPixel cfg e m orig ≤
        unsharpPixel { cfg with edge_strength := es₂ } e m orig := by
  have h1 : (0 : ℚ) ≤ unsharpContribution cfg e m := by
    unfold unsharpContribution sharpenStrength
    have hterm : (0 : ℚ) ≤ e * cfg.edge_strength + (1 - e) * cfg.smooth_strength := by
      nlinarith
    exact mul_nonneg (mul_nonneg hS.le hterm) hm.le
  have h2 : unsharpContribution cfg e m <
      unsharpContribution { cfg with edge_strength := es₂ } e m := by
    unfold unsharpContribution sharpenStrength
    simp only
    nlinarith [mul_pos (mul_pos (mul_pos hS he) (sub_pos.mpr hlt)) hm]
  constructor
  · rw [abs_of_nonneg h1, abs_of_nonneg (le_of_lt (lt_of_le_of_lt h1 h2))]
    exact h2
  · unfold unsharpPixel satCast8 cvRound
    have hr : round (orig + unsharpContribution cfg e m) ≤
        round (orig + unsharpContribution { cfg with edge_strength := es₂ } e m) := by
      rw [round_eq, round_eq]
      exact Int.floor_mono (by linarith)
    omega

/-- C9 witness: the monotonicity theorem at the header's default
configuration (strength 0.8, edge_strength 1.2, smooth_strength 0.4),
edge-mask value 1/2, detail value 10, original pixel 100, raising
edge_strength to 2. -/
theorem c9_edge_strength_monotone_witness :
    |unsharpContribution ⟨8/10, 12/10, 4/10, 30⟩ (1/2) 10| <
        |unsharpContribution ⟨8/10, 2, 4/10, 30⟩ (1/2) 10| ∧
      unsharpPixel ⟨8/10, 12/10, 4/10, 30⟩ (1/2) 10 100 ≤
        unsharpPixel ⟨8/10, 2, 4/10, 30⟩ (1/2) 10 100 :=
  c9_edge_strength_monotone ⟨8/10, 12/10, 4/10, 30⟩ 2 (1/2) 10 100
    (by norm_num) (by norm_num) (by norm_num) (by norm_num) (by norm_num)
    (by norm_num) (by norm_num)

/-- The logistic value 1/(1+e) lies in [0,1] whenever e ≥ 0; this is the
pointwise fact behind both sigmoid-shaped masks. -/
theorem sigmoid_unit_bounds (e : ℚ) (he : 0 ≤ e) :
    0 ≤ 1 / (1 + e) ∧ 1 / (1 + e) ≤ 1 := by
  have hpos : (0 : ℚ) < 1 + e := by linarith
  exact ⟨by positivity, by rw [div_le_one hpos]; linarith⟩

/-- C7: for every input colour image, every pixel of
AdaptiveSharpening::createEdgeMask's mask and of
SelectiveBilateral::createDetailMask's mask lies in [0,1].  For the edge
mask this needs only that std::exp is nonnegative and that the 5×5
Gaussian blur (a convex combination with a normalized kernel) maps
[0,1]-valued images to [0,1]-valued images: the sigmoid 1/(1+e) is then
in (0,1].  The detail mask is unconditionally the constant 1/2: the
cv::sqrt call on the CV_8U local-variance array throws, and the catch
handler installs the neutral mask. -/
theorem c7_mask_bounded (aops : ASOps) (sops : SBOps)
    (scfg : SharpenConfig) (bcfg : SmoothConfig) (input : Img Pix3)
    (hexp : ∀ q, 0 ≤ aops.expOp q)
    (hblur : ∀ m : Img ℚ, (∀ y x, 0 ≤ m.px y x ∧ m.px y x ≤ 1) →
      ∀ y x, 0 ≤ (aops.blurMaskQ m).px y x ∧ (aops.blurMaskQ m).px y x ≤ 1) :
    (∀ y x, 0 ≤ (createEdgeMask aops scfg input).px y x ∧
      (createEdgeMask aops scfg input).px y x ≤ 1) ∧
    (∀ y x, 0 ≤ (createDetailMask sops bcfg input).2.px y x ∧
      (createDetailMask sops bcfg input).2.px y x ≤ 1) := by
  constructor
  · intro y x
    unfold createEdgeMask
    apply hblur
    intro y' x'
    simp only
    exact sigmoid_unit_bounds _ (hexp _)
  · intro y x
    show 0 ≤ (1 : ℚ)/2 ∧ (1 : ℚ)/2 ≤ 1
    norm_num

/-- C7 witness: the boundedness theorem evaluated at a 1×1 black frame
with the zero-gradient collaborators, read off at pixel (0,0): the edge
mask there is the sigmoid value 1/2, the detail mask the neutral 1/2. -/
theorem c7_mask_bounded_witness :
    (0 ≤ (createEdgeMask wASOps ⟨8/10, 12/10, 4/10, 30⟩ blackC).px 0 0 ∧
      (createEdgeMask wASOps ⟨8/10, 12/10, 4/10, 30⟩ blackC).px 0 0 ≤ 1) ∧
    (0 ≤ (createDetailMask wSBOps ⟨50⟩ blackC).2.px 0 0 ∧
      (createDetailMask wSBOps ⟨50⟩ blackC).2.px 0 0 ≤ 1) ∧
    (createEdgeMask wASOps ⟨8/10, 12/10, 4/10, 30⟩ blackC).px 0 0 = 1/2 ∧
    (createDetailMask wSBOps ⟨50⟩ blackC).2.px 0 0 = 1/2 := by
  have h := c7_mask_bounded wASOps wSBOps ⟨8/10, 12/10, 4/10, 30⟩ ⟨50⟩ blackC
    (fun _ => zero_le_one) (fun m hm => hm)
  refine ⟨h.1 0 0, h.2 0 0, ?_, ?_⟩
  · show (1 : ℚ) / (1 + wASOps.expOp _) = 1/2
    norm_num [wASOps]
  · rfl

end VideoProc
